import Mathlib

/-
  Verification of the A* pathfinder and navigation state machine of
  src/code/pathfinder.cpp (class PathFinder).

  The embedding mirrors the C++ source:
  - Position3D is an integer triple.
  - AStarNode stores gCost/hCost/fCost and an optional parent link.
    In the source these costs are C ints; every value they ever take is a
    non-negative step count or Manhattan distance, so they are embedded as Nat.
  - The std::priority_queue with std::greater is embedded as a list from which
    popMin extracts a minimal-fCost element (tie order in the source is
    unspecified; popMin deterministically takes the first minimum).
  - The unordered_map keyed by Position3D is an association list with
    lookupNode and insertNode; the unordered_set of closed cells is a list.
  - The while loop of findPath is bounded in the source by MAX_NODES pops;
    aStarLoop consumes one unit of fuel per pop, started at MAX_NODES.
  - The while loop of reconstructPath follows parent links; under the search
    invariants each link decreases gCost by one, so the chain never exceeds
    the number of stored nodes; reconChain makes this explicit with fuel
    equal to the number of entries of the node map.
-/

structure Position3D where
  x : Int
  y : Int
  z : Int
deriving DecidableEq

structure AStarNode where
  position : Position3D
  gCost : Nat
  hCost : Nat
  fCost : Nat
  parent : Position3D
  hasParent : Bool
deriving DecidableEq

/-- Manhattan distance in (x, z), as in PathFinder::calculateHeuristic. -/
def calculateHeuristic (a b : Position3D) : Nat :=
  (a.x - b.x).natAbs + (a.z - b.z).natAbs

/-- Four cardinal neighbors on the same y level, as in PathFinder::getNeighbors. -/
def getNeighbors (pos : Position3D) : List Position3D :=
  [⟨pos.x + 1, pos.y, pos.z⟩, ⟨pos.x - 1, pos.y, pos.z⟩,
   ⟨pos.x, pos.y, pos.z + 1⟩, ⟨pos.x, pos.y, pos.z - 1⟩]

/-- PathFinder::isValidPosition with the obstacle set passed explicitly. -/
def isValidPosition (obstacles : List Position3D) (pos : Position3D) : Bool :=
  if pos ∈ obstacles then false else true

/-- Extract a first minimal-fCost node from the open list, as the
priority queue pop of findPath does. -/
def popMin : List AStarNode → Option (AStarNode × List AStarNode)
  | [] => none
  | n :: rest =>
    match popMin rest with
    | none => some (n, [])
    | some (m, rest2) =>
      if n.fCost ≤ m.fCost then some (n, rest) else some (m, n :: rest2)

def lookupNode : List (Position3D × AStarNode) → Position3D → Option AStarNode
  | [], _ => none
  | (k, v) :: rest, p => if k = p then some v else lookupNode rest p

def insertNode : List (Position3D × AStarNode) → Position3D → AStarNode →
    List (Position3D × AStarNode)
  | [], p, v => [(p, v)]
  | (k, w) :: rest, p, v =>
    if k = p then (p, v) :: rest else (k, w) :: insertNode rest p v

/-- Follow parent links from a cell, as the while loop of
PathFinder::reconstructPath does; fuel bounds the number of links taken. -/
def reconChain (allN : List (Position3D × AStarNode)) : Nat → Position3D → List Position3D
  | 0, cur => [cur]
  | fuel + 1, cur =>
    match lookupNode allN cur with
    | none => [cur]
    | some nd =>
      if nd.hasParent then cur :: reconChain allN fuel nd.parent else [cur]

/-- PathFinder::reconstructPath: follow parents back to the start, then reverse. -/
def reconstructPath (allN : List (Position3D × AStarNode)) (goal : Position3D) :
    List Position3D :=
  (reconChain allN allN.length goal).reverse

/-- Goal acceptance test of findPath: exact hit or within the 2-cell box. -/
def goalAccepted (v goal : Position3D) : Prop :=
  v = goal ∨ ((v.x - goal.x).natAbs ≤ 2 ∧ (v.z - goal.z).natAbs ≤ 2)

instance (v goal : Position3D) : Decidable (goalAccepted v goal) := by
  unfold goalAccepted; infer_instance

/-- The neighbor relaxation of findPath: skip closed or invalid cells, then
admit a neighbor when it is unseen or the tentative gCost improves on the
recorded one, appending the new node to the open list and storing it. -/
def expandNeighbors (cur : AStarNode) (goal : Position3D) (obstacles : List Position3D)
    (closed : List Position3D) :
    List Position3D → List AStarNode → List (Position3D × AStarNode) →
    List AStarNode × List (Position3D × AStarNode)
  | [], openL, allN => (openL, allN)
  | nb :: rest, openL, allN =>
    if nb ∈ closed then
      expandNeighbors cur goal obstacles closed rest openL allN
    else if isValidPosition obstacles nb = false then
      expandNeighbors cur goal obstacles closed rest openL allN
    else
      let tg := cur.gCost + 1
      match lookupNode allN nb with
      | none =>
        let nd : AStarNode :=
          ⟨nb, tg, calculateHeuristic nb goal, tg + calculateHeuristic nb goal,
           cur.position, true⟩
        expandNeighbors cur goal obstacles closed rest (openL ++ [nd]) (insertNode allN nb nd)
      | some old =>
        if tg < old.gCost then
          let nd : AStarNode :=
            ⟨nb, tg, calculateHeuristic nb goal, tg + calculateHeuristic nb goal,
             cur.position, true⟩
          expandNeighbors cur goal obstacles closed rest (openL ++ [nd]) (insertNode allN nb nd)
        else
          expandNeighbors cur goal obstacles closed rest openL allN

/-- The main loop of PathFinder::findPath; one unit of fuel per pop, matching
the nodesExplored < MAX_NODES bound of the source. -/
def aStarLoop (goal : Position3D) (obstacles : List Position3D) :
    Nat → List AStarNode → List (Position3D × AStarNode) → List Position3D →
    List Position3D
  | 0, _, _, _ => []
  | fuel + 1, openL, allN, closed =>
    match popMin openL with
    | none => []
    | some (cur, rest) =>
      if cur.position ∈ closed then
        aStarLoop goal obstacles fuel rest allN closed
      else
        if goalAccepted cur.position goal then
          reconstructPath allN cur.position
        else
          let pr := expandNeighbors cur goal obstacles (cur.position :: closed)
            (getNeighbors cur.position) rest allN
          aStarLoop goal obstacles fuel pr.1 pr.2 (cur.position :: closed)

def MAX_NODES : Nat := 10000

/-- PathFinder::findPath. -/
def findPath (start goal : Position3D) (obstacles : List Position3D) :
    List Position3D :=
  let h0 := calculateHeuristic start goal
  let startNode : AStarNode := ⟨start, 0, h0, h0, ⟨0, 0, 0⟩, false⟩
  aStarLoop goal obstacles MAX_NODES [startNode] [(start, startNode)] []

/- ===== The navigation state machine (class PathFinder) ===== -/

inductive NavState where
  | Idle
  | RequestPosition
  | RequestCurrentPosition
  | MoveToTarget
  | CheckObstacle
  | Done
deriving DecidableEq

/-- The mutable fields of class PathFinder. -/
structure PathFinder where
  state : NavState
  currentX : Int
  currentY : Int
  currentZ : Int
  target : Position3D
  hasTarget : Bool
  currentPath : List Position3D
  currentPathIndex : Nat
  knownObstacles : List Position3D
  needsReplan : Bool
  currentDirection : String
  obstacleCheckCount : Nat
  stepCount : Nat
  directions : List String
  currentDirectionIndex : Nat
deriving DecidableEq

/-- The PathFinder constructor. -/
def PathFinder.init : PathFinder :=
  ⟨NavState.Idle, 0, 0, 0, ⟨0, 0, 0⟩, false, [], 0, [], false, "east", 0, 0,
   ["east", "south", "west", "north"], 0⟩

def MAX_STEPS : Nat := 2000

/-- The value of a possibly present ok field of a step reply: a JSON boolean,
a JSON string, or a value of any other JSON type. -/
inductive OkVal where
  | bool (b : Bool)
  | str (s : String)
  | other
deriving DecidableEq

/-- The fields of a feedback message that PathFinder::handleBotFeedback reads.
Each field is present or absent; a present position object carries x, y, z. -/
structure Msg where
  action : Option String
  status : Option String
  ty : Option String
  position : Option Position3D
  x : Option Int
  y : Option Int
  z : Option Int
  ok : Option OkVal
  name : Option String
deriving DecidableEq

/-- The single request a call to nextAction can emit. -/
inductive BotAction where
  | position
  | step (dir : String)
  | blockAt (x y z : Int)
deriving DecidableEq

/-- PathFinder::setTarget. -/
def setTarget (x y z : Int) (pf : PathFinder) : PathFinder :=
  let pf2 := { pf with
    target := ⟨x, y, z⟩
    hasTarget := true
    stepCount := 0
    currentPath := []
    currentPathIndex := 0
    needsReplan := true }
  if pf2.state = NavState.Idle then { pf2 with state := NavState.RequestPosition } else pf2

/-- PathFinder::isComplete. -/
def isComplete (pf : PathFinder) : Bool :=
  pf.state = NavState.Done ∨ pf.state = NavState.Idle

/-- PathFinder::isAtTarget: within 2 blocks on each of x and z. -/
def isAtTarget (pf : PathFinder) : Prop :=
  (pf.target.x - pf.currentX).natAbs ≤ 2 ∧ (pf.target.z - pf.currentZ).natAbs ≤ 2

instance (pf : PathFinder) : Decidable (isAtTarget pf) := by
  unfold isAtTarget; infer_instance

/-- PathFinder::isAtCurrentWaypoint: the cursor waypoint matches on x and z. -/
def isAtCurrentWaypoint (pf : PathFinder) : Prop :=
  pf.currentPath ≠ [] ∧ pf.currentPathIndex < pf.currentPath.length ∧
    (let w := pf.currentPath.getD pf.currentPathIndex ⟨0, 0, 0⟩
     pf.currentX = w.x ∧ pf.currentZ = w.z)

instance (pf : PathFinder) : Decidable (isAtCurrentWaypoint pf) := by
  unfold isAtCurrentWaypoint; infer_instance

/-- PathFinder::calculateDirectionToNextWaypoint. -/
def calculateDirectionToNextWaypoint (pf : PathFinder) : String :=
  if pf.currentPath = [] ∨ pf.currentPath.length ≤ pf.currentPathIndex then "east"
  else
    let w := pf.currentPath.getD pf.currentPathIndex ⟨0, 0, 0⟩
    let dx := w.x - pf.currentX
    let dz := w.z - pf.currentZ
    if dx.natAbs > dz.natAbs then (if dx > 0 then "east" else "west")
    else if dz.natAbs > 0 then (if dz > 0 then "south" else "north")
    else "east"

/-- PathFinder::chooseNextDirection. -/
def chooseNextDirection (pf : PathFinder) : PathFinder :=
  if pf.currentPath = [] ∨ pf.currentPath.length ≤ pf.currentPathIndex then pf
  else
    let nd := calculateDirectionToNextWaypoint pf
    if nd ≠ "" then
      let pf2 := { pf with currentDirection := nd }
      match pf2.directions.findIdx? (fun d => d = pf2.currentDirection) with
      | some i => { pf2 with currentDirectionIndex := i }
      | none => pf2
    else pf

/-- PathFinder::planPath. -/
def planPath (pf : PathFinder) : PathFinder :=
  if pf.hasTarget = false then pf
  else
    let path := findPath ⟨pf.currentX, pf.currentY, pf.currentZ⟩ pf.target pf.knownObstacles
    let pf2 := { pf with currentPath := path, currentPathIndex := 0, needsReplan := false }
    if path ≠ [] then chooseNextDirection pf2 else pf2

/-- PathFinder::getFrontBlockPosition. -/
def getFrontBlockPosition (pf : PathFinder) (upperBlock : Bool) : Int × Int × Int :=
  let y := pf.currentY + (if upperBlock then 1 else 0)
  if pf.currentDirection = "east" then (pf.currentX + 1, y, pf.currentZ)
  else if pf.currentDirection = "west" then (pf.currentX - 1, y, pf.currentZ)
  else if pf.currentDirection = "north" then (pf.currentX, y, pf.currentZ - 1)
  else if pf.currentDirection = "south" then (pf.currentX, y, pf.currentZ + 1)
  else (pf.currentX, y, pf.currentZ)

/-- PathFinder::getDistanceToTarget. -/
def getDistanceToTarget (pf : PathFinder) : Nat :=
  (pf.target.x - pf.currentX).natAbs + (pf.target.z - pf.currentZ).natAbs

/-- PathFinder::addObstacle. -/
def addObstacle (pos : Position3D) (pf : PathFinder) : PathFinder :=
  if pos ∈ pf.knownObstacles then pf
  else { pf with knownObstacles := pos :: pf.knownObstacles }

/-- PathFinder::nextAction: returns the emitted request, if any, and the
machine after the internal transitions the call performs. -/
def nextAction (pf : PathFinder) : Option BotAction × PathFinder :=
  if pf.hasTarget = false then (none, pf)
  else
    match pf.state with
    | NavState.RequestPosition => (some BotAction.position, pf)
    | NavState.RequestCurrentPosition => (some BotAction.position, pf)
    | NavState.MoveToTarget =>
      if isAtTarget pf then (none, { pf with state := NavState.Done })
      else if MAX_STEPS ≤ pf.stepCount then (none, { pf with state := NavState.Done })
      else
        let pf2 := if pf.needsReplan = true ∨ pf.currentPath = [] ∨
            pf.currentPath.length ≤ pf.currentPathIndex then planPath pf else pf
        if pf2.currentPath = [] then (none, { pf2 with state := NavState.Done })
        else
          let pf3 := if isAtCurrentWaypoint pf2 ∧
              pf2.currentPathIndex < pf2.currentPath.length - 1 then
            { pf2 with currentPathIndex := pf2.currentPathIndex + 1 } else pf2
          (some (BotAction.step pf3.currentDirection), pf3)
    | NavState.CheckObstacle =>
      let fb := getFrontBlockPosition pf (pf.obstacleCheckCount = 1)
      (some (BotAction.blockAt fb.1 fb.2.1 fb.2.2), pf)
    | NavState.Idle => (none, pf)
    | NavState.Done => (none, pf)

/-- The direction delta applied on a successful step. -/
def applyStepDelta (pf : PathFinder) : PathFinder :=
  if pf.currentDirection = "east" then { pf with currentX := pf.currentX + 1 }
  else if pf.currentDirection = "west" then { pf with currentX := pf.currentX - 1 }
  else if pf.currentDirection = "north" then { pf with currentZ := pf.currentZ - 1 }
  else if pf.currentDirection = "south" then { pf with currentZ := pf.currentZ + 1 }
  else pf

/-- PathFinder::handleBotFeedback. -/
def handleBotFeedback (msg : Msg) (pf : PathFinder) : PathFinder :=
  if msg.action = none ∧ msg.status = none ∧ msg.ty = none then pf
  else
    match pf.state with
    | NavState.RequestPosition =>
      if msg.status = some "ok" ∨ msg.ty = some "position" then
        let pf2 :=
          match msg.position with
          | some p => { pf with currentX := p.x, currentY := p.y, currentZ := p.z }
          | none =>
            match msg.x, msg.y, msg.z with
            | some a, some b, some c =>
              { pf with currentX := a, currentY := b, currentZ := c }
            | _, _, _ => pf
        { planPath pf2 with state := NavState.MoveToTarget }
      else pf
    | NavState.RequestCurrentPosition =>
      if msg.status = some "ok" ∨ msg.ty = some "position" then
        let pf2 :=
          match msg.position with
          | some p => { pf with currentX := p.x, currentY := p.y, currentZ := p.z }
          | none =>
            match msg.x, msg.y, msg.z with
            | some a, some b, some c =>
              { pf with currentX := a, currentY := b, currentZ := c }
            | _, _, _ => pf
        { pf2 with obstacleCheckCount := 0, state := NavState.CheckObstacle }
      else pf
    | NavState.MoveToTarget =>
      if msg.action = some "step" then
        let stepSuccessful :=
          match msg.ok with
          | some (OkVal.bool b) => b
          | some (OkVal.str s) => s = "true"
          | some OkVal.other => false
          | none => false
        if stepSuccessful then
          chooseNextDirection (applyStepDelta { pf with stepCount := pf.stepCount + 1 })
        else { pf with state := NavState.RequestCurrentPosition }
      else pf
    | NavState.CheckObstacle =>
      if msg.action = some "block_at" ∨ msg.ty = some "block_at" then
        let pf2 :=
          match msg.name with
          | some _ =>
            let fb := getFrontBlockPosition pf (pf.obstacleCheckCount = 1)
            { addObstacle ⟨fb.1, fb.2.1, fb.2.2⟩ pf with needsReplan := true }
          | none => pf
        let pf3 := { pf2 with obstacleCheckCount := pf2.obstacleCheckCount + 1 }
        if 2 ≤ pf3.obstacleCheckCount then
          { planPath pf3 with state := NavState.MoveToTarget }
        else pf3
      else pf
    | NavState.Idle => pf
    | NavState.Done => pf

/- ===== Driver composition and concrete scenario data ===== -/

/-- One protocol turn: produce the next action, then consume one feedback
message, as the loop in main.cpp does. -/
def driveOne (m : Msg) (pf : PathFinder) : PathFinder :=
  handleBotFeedback m (nextAction pf).2

def isStepRequest : Option BotAction → Bool
  | some (BotAction.step _) => true
  | _ => false

/-- Run a sequence of protocol turns, counting how many of the emitted
requests were step attempts. -/
def driveCount : List Msg → PathFinder → Nat × PathFinder
  | [], pf => (0, pf)
  | m :: rest, pf =>
    let a := nextAction pf
    let r := driveCount rest (handleBotFeedback m a.2)
    (r.1 + (if isStepRequest a.1 then 1 else 0), r.2)

def emptyMsg : Msg := ⟨none, none, none, none, none, none, none, none, none⟩

/-- A position reply carrying a position object, tagged with status ok. -/
def posReplyMsg (p : Position3D) : Msg :=
  { emptyMsg with status := some "ok", position := some p }

/-- A step reply reporting failure. -/
def stepFailMsg : Msg :=
  { emptyMsg with action := some "step", ok := some (OkVal.bool false) }

/-- A block_at reply with no name field: the probed cell is empty. -/
def blockEmptyMsg : Msg := { emptyMsg with action := some "block_at" }

/-- A reply tagged status ok that carries no coordinate fields at all. -/
def statusOkOnlyMsg : Msg := { emptyMsg with status := some "ok" }

/-- A machine state on the failure-probe cycle: target (3,100,0), tracked
position (0,100,0), probing obstacles with both slots still unprobed. -/
def cycleState : PathFinder :=
  ⟨NavState.CheckObstacle, 0, 100, 0, ⟨3, 100, 0⟩, true,
   [⟨0, 100, 0⟩, ⟨1, 100, 0⟩], 1, [], false, "east", 0, 0,
   ["east", "south", "west", "north"], 0⟩

/-- Feedback for one full failure cycle out of cycleState: two empty probe
replies, a failed step, and a position reply confirming the old position. -/
def cycleMsgs : List Msg :=
  [blockEmptyMsg, blockEmptyMsg, stepFailMsg, posReplyMsg ⟨0, 100, 0⟩]

/-- Feedback leading from a freshly set target into cycleState: the initial
position reply, a failed step, and a position reply confirming the position. -/
def setupMsgs : List Msg :=
  [posReplyMsg ⟨0, 100, 0⟩, stepFailMsg, posReplyMsg ⟨0, 100, 0⟩]

def repeatMsgs (n : Nat) : List Msg := (List.replicate n cycleMsgs).flatten

/- ===== Spec-facing predicates used to state the claims ===== -/

/-- Manhattan distance in the two horizontal axes. -/
def manhattanXZ (a b : Position3D) : Nat :=
  (a.x - b.x).natAbs + (a.z - b.z).natAbs

/-- One unit cardinal move: exactly one of x and z changes by exactly 1,
the other axes are unchanged. -/
def unitStep (a b : Position3D) : Prop :=
  ((b.x - a.x).natAbs = 1 ∧ b.z = a.z ∨ b.x = a.x ∧ (b.z - a.z).natAbs = 1) ∧ b.y = a.y

/-- The message carries at least one of the three top-level tag fields. -/
def hasAnyTag (m : Msg) : Prop :=
  m.action ≠ none ∨ m.status ≠ none ∨ m.ty ≠ none

/-- The tag test the current state dispatches on in handleBotFeedback. -/
def relevantTo (s : NavState) (m : Msg) : Prop :=
  match s with
  | NavState.RequestPosition => m.status = some "ok" ∨ m.ty = some "position"
  | NavState.RequestCurrentPosition => m.status = some "ok" ∨ m.ty = some "position"
  | NavState.MoveToTarget => m.action = some "step"
  | NavState.CheckObstacle => m.action = some "block_at" ∨ m.ty = some "block_at"
  | NavState.Idle => False
  | NavState.Done => False

/-- A reply to a cell probe: tagged block_at by its action or, lacking an
action field, by its type field. -/
def isBlockAtReply (m : Msg) : Prop :=
  m.action = some "block_at" ∨ (m.action = none ∧ m.ty = some "block_at")

/-- A step reply that handleBotFeedback treats as a successful step. -/
def isSuccessfulStepMsg (m : Msg) : Prop :=
  m.action = some "step" ∧
    (m.ok = some (OkVal.bool true) ∨ m.ok = some (OkVal.str "true"))

instance (s : NavState) (m : Msg) : Decidable (relevantTo s m) := by
  unfold relevantTo
  cases s <;> infer_instance

instance (m : Msg) : Decidable (hasAnyTag m) := by
  unfold hasAnyTag
  infer_instance

instance (m : Msg) : Decidable (isBlockAtReply m) := by
  unfold isBlockAtReply
  infer_instance

instance (m : Msg) : Decidable (isSuccessfulStepMsg m) := by
  unfold isSuccessfulStepMsg
  infer_instance

instance (a b : Position3D) : Decidable (unitStep a b) := by
  unfold unitStep
  infer_instance

/- ===== Invariants of the A* loop state ===== -/

def keysOf (l : List (Position3D × AStarNode)) : List Position3D := l.map Prod.fst

/-- Parent links of stored nodes: a node without a parent is the start node
with gCost 0; a node with one is a cardinal neighbor of its parent, the
parent is closed, is stored, and its stored gCost is one less. -/
def parentInv (start : Position3D) (allN : List (Position3D × AStarNode))
    (closed : List Position3D) : Prop :=
  ∀ p nd, lookupNode allN p = some nd →
    (nd.hasParent = false → p = start ∧ nd.gCost = 0) ∧
    (nd.hasParent = true → p ∈ getNeighbors nd.parent ∧ nd.parent ∈ closed ∧
      ∃ pn, lookupNode allN nd.parent = some pn ∧ pn.gCost + 1 = nd.gCost)

/-- Every open entry has an honest hCost and fCost and a stored node whose
gCost is at most the entry gCost. -/
def openEntriesInv (goal : Position3D) (allN : List (Position3D × AStarNode))
    (openL : List AStarNode) : Prop :=
  ∀ e ∈ openL, e.hCost = calculateHeuristic e.position goal ∧
    e.fCost = e.gCost + e.hCost ∧
    ∃ nd, lookupNode allN e.position = some nd ∧ nd.gCost ≤ e.gCost

/-- Every stored node not yet closed still has an open entry carrying its
stored gCost. -/
def openWitnessInv (allN : List (Position3D × AStarNode)) (openL : List AStarNode)
    (closed : List Position3D) : Prop :=
  ∀ p nd, lookupNode allN p = some nd → p ∉ closed →
    ∃ e ∈ openL, e.position = p ∧ e.gCost = nd.gCost

/-- Stored cells other than the start cell are never obstacles. -/
def validKeysInv (start : Position3D) (obstacles : List Position3D)
    (allN : List (Position3D × AStarNode)) : Prop :=
  ∀ p ∈ keysOf allN, p = start ∨ p ∉ obstacles

/-- All stored cells lie on the start's y level. -/
def yKeysInv (start : Position3D) (allN : List (Position3D × AStarNode)) : Prop :=
  ∀ p ∈ keysOf allN, p.y = start.y

/-- The invariant of the findPath loop that holds for every obstacle set. -/
def GInv (start goal : Position3D) (obstacles : List Position3D)
    (openL : List AStarNode) (allN : List (Position3D × AStarNode))
    (closed : List Position3D) : Prop :=
  (keysOf allN).Nodup ∧
  (∀ c ∈ closed, c ∈ keysOf allN) ∧
  validKeysInv start obstacles allN ∧
  yKeysInv start allN ∧
  parentInv start allN closed ∧
  openEntriesInv goal allN openL ∧
  openWitnessInv allN openL closed

/-- Stored gCosts dominate the Manhattan distance from the start. -/
def gLBInv (start : Position3D) (allN : List (Position3D × AStarNode)) : Prop :=
  ∀ p nd, lookupNode allN p = some nd → calculateHeuristic start p ≤ nd.gCost

/-- Closed cells are stored with the exact Manhattan distance from the start. -/
def closedOptInv (start : Position3D) (allN : List (Position3D × AStarNode))
    (closed : List Position3D) : Prop :=
  ∀ u ∈ closed, ∃ nd, lookupNode allN u = some nd ∧
    nd.gCost = calculateHeuristic start u

/-- Non-closed neighbors of closed cells are stored with gCost at most one
more than the closed cell's distance from the start. -/
def frontierInv (start : Position3D) (allN : List (Position3D × AStarNode))
    (closed : List Position3D) : Prop :=
  ∀ u ∈ closed, ∀ v ∈ getNeighbors u, v ∉ closed →
    ∃ nd, lookupNode allN v = some nd ∧
      nd.gCost ≤ calculateHeuristic start u + 1

/-- The start cell is stored with gCost 0. -/
def startZeroInv (start : Position3D) (allN : List (Position3D × AStarNode)) : Prop :=
  ∃ nd, lookupNode allN start = some nd ∧ nd.gCost = 0

/-- The strengthened invariant used on an empty obstacle set. -/
def OInv (start goal : Position3D) (openL : List AStarNode)
    (allN : List (Position3D × AStarNode)) (closed : List Position3D) : Prop :=
  GInv start goal [] openL allN closed ∧
  gLBInv start allN ∧
  closedOptInv start allN closed ∧
  frontierInv start allN closed ∧
  startZeroInv start allN

/-- The node expandNeighbors builds for an admitted neighbor. -/
def newNode (cur : AStarNode) (goal p : Position3D) : AStarNode :=
  ⟨p, cur.gCost + 1, calculateHeuristic p goal,
   cur.gCost + 1 + calculateHeuristic p goal, cur.position, true⟩

/- ===== Basic lemmas on the embedded containers ===== -/

theorem lookup_insert_self (l : List (Position3D × AStarNode)) (p : Position3D)
    (v : AStarNode) : lookupNode (insertNode l p v) p = some v := by
  induction l with
  | nil => simp [insertNode, lookupNode]
  | cons hd tl ih =>
    obtain ⟨k, w⟩ := hd
    by_cases hk : k = p
    · subst hk
      simp [insertNode, lookupNode]
    · simp [insertNode, lookupNode, hk, ih]

theorem lookup_insert_ne (l : List (Position3D × AStarNode)) (p q : Position3D)
    (v : AStarNode) (h : q ≠ p) :
    lookupNode (insertNode l p v) q = lookupNode l q := by
  have hpq : ¬ p = q := fun hh => h hh.symm
  induction l with
  | nil => simp [insertNode, lookupNode, hpq]
  | cons hd tl ih =>
    obtain ⟨k, w⟩ := hd
    by_cases hk : k = p
    · subst hk
      simp [insertNode, lookupNode, hpq]
    · simp only [insertNode, lookupNode, if_neg hk]
      by_cases hq : k = q
      · simp [hq]
      · simp [hq, ih]

theorem mem_keys_of_lookup (l : List (Position3D × AStarNode)) (p : Position3D)
    (nd : AStarNode) (h : lookupNode l p = some nd) : p ∈ keysOf l := by
  induction l with
  | nil => simp [lookupNode] at h
  | cons hd tl ih =>
    obtain ⟨k, w⟩ := hd
    by_cases hk : k = p
    · subst hk
      simp [keysOf]
    · simp only [lookupNode, if_neg hk] at h
      have hmem := ih h
      have hcons : keysOf ((k, w) :: tl) = k :: keysOf tl := rfl
      rw [hcons]
      exact List.mem_cons_of_mem _ hmem

theorem lookup_of_mem_keys (l : List (Position3D × AStarNode)) (p : Position3D)
    (h : p ∈ keysOf l) : ∃ nd, lookupNode l p = some nd := by
  induction l with
  | nil => simp [keysOf] at h
  | cons hd tl ih =>
    obtain ⟨k, w⟩ := hd
    by_cases hk : k = p
    · subst hk
      exact ⟨w, by simp [lookupNode]⟩
    · have hmem : p ∈ keysOf tl := by
        simp [keysOf] at h
        rcases h with h | h
        · exact absurd h.symm hk
        · simpa [keysOf] using h
      obtain ⟨nd, hnd⟩ := ih hmem
      exact ⟨nd, by simp [lookupNode, hk, hnd]⟩

theorem mem_keys_insert (l : List (Position3D × AStarNode)) (p q : Position3D)
    (v : AStarNode) :
    q ∈ keysOf (insertNode l p v) ↔ q = p ∨ q ∈ keysOf l := by
  induction l with
  | nil => simp [insertNode, keysOf]
  | cons hd tl ih =>
    obtain ⟨k, w⟩ := hd
    by_cases hk : k = p
    · subst hk
      simp [insertNode, keysOf]
    · simp only [insertNode, if_neg hk, keysOf, List.map_cons, List.mem_cons] at ih ⊢
      constructor
      · rintro (h | h)
        · exact Or.inr (Or.inl h)
        · rcases (ih.mp h) with h | h
          · exact Or.inl h
          · exact Or.inr (Or.inr h)
      · rintro (h | h | h)
        · exact Or.inr (ih.mpr (Or.inl h))
        · exact Or.inl h
        · exact Or.inr (ih.mpr (Or.inr h))

theorem nodup_keys_insert (l : List (Position3D × AStarNode)) (p : Position3D)
    (v : AStarNode) (h : (keysOf l).Nodup) : (keysOf (insertNode l p v)).Nodup := by
  induction l with
  | nil => simp [insertNode, keysOf]
  | cons hd tl ih =>
    obtain ⟨k, w⟩ := hd
    have h1 : k ∉ keysOf tl := by
      simp [keysOf] at h
      simpa [keysOf] using h.1
    have h2 : (keysOf tl).Nodup := by
      simp [keysOf] at h
      simpa [keysOf] using h.2
    by_cases hk : k = p
    · subst hk
      have hins : insertNode ((k, w) :: tl) k v = (k, v) :: tl := by
        simp [insertNode]
      rw [hins]
      simp only [keysOf, List.map_cons, List.nodup_cons]
      exact ⟨h1, h2⟩
    · simp only [insertNode, if_neg hk, keysOf, List.map_cons, List.nodup_cons]
      refine ⟨?_, ih h2⟩
      intro hmem
      rcases (mem_keys_insert tl p k v).mp hmem with hmem | hmem
      · exact hk hmem
      · exact h1 hmem

theorem length_keys (l : List (Position3D × AStarNode)) :
    (keysOf l).length = l.length := by
  simp [keysOf]

/- ===== Lemmas on popMin ===== -/

theorem popMin_eq_none (l : List AStarNode) : popMin l = none ↔ l = [] := by
  cases l with
  | nil => simp [popMin]
  | cons n rest =>
    simp only [popMin]
    cases h : popMin rest with
    | none => simp
    | some pr =>
      obtain ⟨m, r2⟩ := pr
      by_cases hle : n.fCost ≤ m.fCost <;> simp [hle]

theorem popMin_perm (l : List AStarNode) (c : AStarNode) (r : List AStarNode)
    (h : popMin l = some (c, r)) : l.Perm (c :: r) := by
  induction l generalizing c r with
  | nil => simp [popMin] at h
  | cons n rest ih =>
    simp only [popMin] at h
    cases hr : popMin rest with
    | none =>
      rw [hr] at h
      rw [popMin_eq_none] at hr
      subst hr
      simp at h
      obtain ⟨rfl, rfl⟩ := h
      exact List.Perm.refl _
    | some pr =>
      obtain ⟨m, r2⟩ := pr
      rw [hr] at h
      by_cases hle : n.fCost ≤ m.fCost
      · simp [hle] at h
        obtain ⟨rfl, rfl⟩ := h
        exact List.Perm.refl _
      · simp [hle] at h
        obtain ⟨rfl, rfl⟩ := h
        exact ((ih m r2 hr).cons n).trans (List.Perm.swap m n r2)

theorem popMin_min (l : List AStarNode) (c : AStarNode) (r : List AStarNode)
    (h : popMin l = some (c, r)) : ∀ e ∈ l, c.fCost ≤ e.fCost := by
  induction l generalizing c r with
  | nil => simp [popMin] at h
  | cons n rest ih =>
    simp only [popMin] at h
    cases hr : popMin rest with
    | none =>
      rw [hr] at h
      rw [popMin_eq_none] at hr
      subst hr
      simp at h
      obtain ⟨rfl, rfl⟩ := h
      simp
    | some pr =>
      obtain ⟨m, r2⟩ := pr
      rw [hr] at h
      by_cases hle : n.fCost ≤ m.fCost
      · simp [hle] at h
        obtain ⟨rfl, rfl⟩ := h
        intro e he
        rcases List.mem_cons.mp he with he | he
        · subst he; exact le_refl _
        · exact le_trans hle (ih m r2 hr e he)
      · simp [hle] at h
        obtain ⟨rfl, rfl⟩ := h
        intro e he
        rcases List.mem_cons.mp he with he | he
        · subst he; exact le_of_lt (Nat.lt_of_not_le hle)
        · exact ih m r2 hr e he

/- ===== Lemmas on expandNeighbors ===== -/

theorem expand_open_extends (cur : AStarNode) (goal : Position3D)
    (obstacles closed : List Position3D) (nbs : List Position3D) :
    ∀ openL allN, ∃ extra,
      (expandNeighbors cur goal obstacles closed nbs openL allN).1 = openL ++ extra := by
  induction nbs with
  | nil =>
    intro openL allN
    exact ⟨[], by simp [expandNeighbors]⟩
  | cons nb rest ih =>
    intro openL allN
    by_cases h1 : nb ∈ closed
    · simpa [expandNeighbors, h1] using ih openL allN
    · by_cases h2 : isValidPosition obstacles nb = false
      · simpa [expandNeighbors, h1, h2] using ih openL allN
      · cases hl : lookupNode allN nb with
        | none =>
          obtain ⟨extra, he⟩ :=
            ih (openL ++ [newNode cur goal nb]) (insertNode allN nb (newNode cur goal nb))
          refine ⟨newNode cur goal nb :: extra, ?_⟩
          simp only [expandNeighbors, if_neg h1, if_neg h2, hl]
          simpa [newNode] using he
        | some old =>
          by_cases h3 : cur.gCost + 1 < old.gCost
          · obtain ⟨extra, he⟩ :=
              ih (openL ++ [newNode cur goal nb]) (insertNode allN nb (newNode cur goal nb))
            refine ⟨newNode cur goal nb :: extra, ?_⟩
            simp only [expandNeighbors, if_neg h1, if_neg h2, hl, if_pos h3]
            simpa [newNode] using he
          · obtain ⟨extra, he⟩ := ih openL allN
            refine ⟨extra, ?_⟩
            simp only [expandNeighbors, if_neg h1, if_neg h2, hl, if_neg h3]
            exact he

theorem expand_lookup_mono (cur : AStarNode) (goal : Position3D)
    (obstacles closed : List Position3D) (nbs : List Position3D) :
    ∀ openL allN p nd, lookupNode allN p = some nd →
      ∃ nd2, lookupNode (expandNeighbors cur goal obstacles closed nbs openL allN).2 p =
        some nd2 ∧ nd2.gCost ≤ nd.gCost := by
  induction nbs with
  | nil =>
    intro openL allN p nd h
    exact ⟨nd, by simpa [expandNeighbors] using h, le_refl _⟩
  | cons nb rest ih =>
    intro openL allN p nd h
    by_cases h1 : nb ∈ closed
    · simp only [expandNeighbors, if_pos h1]
      exact ih openL allN p nd h
    · by_cases h2 : isValidPosition obstacles nb = false
      · simp only [expandNeighbors, if_neg h1, if_pos h2]
        exact ih openL allN p nd h
      · cases hl : lookupNode allN nb with
        | none =>
          simp only [expandNeighbors, if_neg h1, if_neg h2, hl]
          have hne : p ≠ nb := by
            intro hh
            subst hh
            rw [h] at hl
            exact Option.noConfusion hl
          have hkeep : lookupNode (insertNode allN nb (newNode cur goal nb)) p = some nd := by
            rw [lookup_insert_ne allN nb p _ hne]
            exact h
          simpa [newNode] using ih _ _ p nd hkeep
        | some old =>
          by_cases h3 : cur.gCost + 1 < old.gCost
          · simp only [expandNeighbors, if_neg h1, if_neg h2, hl, if_pos h3]
            by_cases hne : p = nb
            · subst hne
              rw [h] at hl
              have hold : nd = old := Option.some.inj hl
              subst hold
              have hkeep : lookupNode (insertNode allN p (newNode cur goal p)) p =
                  some (newNode cur goal p) := lookup_insert_self allN p _
              obtain ⟨nd2, hnd2, hle⟩ := ih _ _ p (newNode cur goal p) hkeep
              refine ⟨nd2, by simpa [newNode] using hnd2, ?_⟩
              have : (newNode cur goal p).gCost ≤ nd.gCost := le_of_lt h3
              exact le_trans hle this
            · have hkeep : lookupNode (insertNode allN nb (newNode cur goal nb)) p = some nd := by
                rw [lookup_insert_ne allN nb p _ hne]
                exact h
              obtain ⟨nd2, hnd2, hle⟩ := ih _ _ p nd hkeep
              exact ⟨nd2, by simpa [newNode] using hnd2, hle⟩
          · simp only [expandNeighbors, if_neg h1, if_neg h2, hl, if_neg h3]
            exact ih openL allN p nd h

theorem expand_char (cur : AStarNode) (goal : Position3D)
    (obstacles closed : List Position3D) (nbs : List Position3D) :
    ∀ openL allN p,
      lookupNode (expandNeighbors cur goal obstacles closed nbs openL allN).2 p =
        lookupNode allN p ∨
      (p ∈ nbs ∧ p ∉ closed ∧ isValidPosition obstacles p = true ∧
        lookupNode (expandNeighbors cur goal obstacles closed nbs openL allN).2 p =
          some (newNode cur goal p) ∧
        newNode cur goal p ∈ (expandNeighbors cur goal obstacles closed nbs openL allN).1 ∧
        (lookupNode allN p = none ∨
          ∃ old, lookupNode allN p = some old ∧ cur.gCost + 1 < old.gCost)) := by
  induction nbs with
  | nil =>
    intro openL allN p
    exact Or.inl (by simp [expandNeighbors])
  | cons nb rest ih =>
    intro openL allN p
    by_cases h1 : nb ∈ closed
    · rcases ih openL allN p with hc | hc
      · exact Or.inl (by simpa [expandNeighbors, h1] using hc)
      · refine Or.inr ⟨List.mem_cons_of_mem _ hc.1, hc.2.1, hc.2.2.1, ?_, ?_, hc.2.2.2.2.2⟩
        · simpa [expandNeighbors, h1] using hc.2.2.2.1
        · simpa [expandNeighbors, h1] using hc.2.2.2.2.1
    · by_cases h2 : isValidPosition obstacles nb = false
      · rcases ih openL allN p with hc | hc
        · exact Or.inl (by simpa [expandNeighbors, h1, h2] using hc)
        · refine Or.inr ⟨List.mem_cons_of_mem _ hc.1, hc.2.1, hc.2.2.1, ?_, ?_, hc.2.2.2.2.2⟩
          · simpa [expandNeighbors, h1, h2] using hc.2.2.2.1
          · simpa [expandNeighbors, h1, h2] using hc.2.2.2.2.1
      · have hval : isValidPosition obstacles nb = true := by
          cases hb : isValidPosition obstacles nb
          · exact absurd hb h2
          · rfl
        cases hl : lookupNode allN nb with
        | none =>
          by_cases hp : p = nb
          · subst hp
            have hself : lookupNode (insertNode allN p (newNode cur goal p)) p =
                some (newNode cur goal p) := lookup_insert_self allN p _
            rcases ih (openL ++ [newNode cur goal p])
                (insertNode allN p (newNode cur goal p)) p with hc | hc
            · refine Or.inr ⟨List.mem_cons_self _ _, h1, hval, ?_, ?_, Or.inl hl⟩
              · rw [show (expandNeighbors cur goal obstacles closed (p :: rest) openL allN).2 =
                    (expandNeighbors cur goal obstacles closed rest
                      (openL ++ [newNode cur goal p])
                      (insertNode allN p (newNode cur goal p))).2 by
                  simp [expandNeighbors, h1, h2, hl, newNode]]
                rw [hc, hself]
              · obtain ⟨extra, he⟩ := expand_open_extends cur goal obstacles closed rest
                  (openL ++ [newNode cur goal p]) (insertNode allN p (newNode cur goal p))
                rw [show (expandNeighbors cur goal obstacles closed (p :: rest) openL allN).1 =
                    (expandNeighbors cur goal obstacles closed rest
                      (openL ++ [newNode cur goal p])
                      (insertNode allN p (newNode cur goal p))).1 by
                  simp [expandNeighbors, h1, h2, hl, newNode]]
                rw [he]
                simp
            · exfalso
              rcases hc.2.2.2.2.2 with hbad | hbad
              · rw [hself] at hbad
                exact Option.noConfusion hbad
              · obtain ⟨old, hold, hlt⟩ := hbad
                rw [hself] at hold
                have : old = newNode cur goal p := (Option.some.inj hold).symm
                subst this
                simp [newNode] at hlt
          · rcases ih (openL ++ [newNode cur goal nb])
                (insertNode allN nb (newNode cur goal nb)) p with hc | hc
            · refine Or.inl ?_
              rw [show (expandNeighbors cur goal obstacles closed (nb :: rest) openL allN).2 =
                  (expandNeighbors cur goal obstacles closed rest
                    (openL ++ [newNode cur goal nb])
                    (insertNode allN nb (newNode cur goal nb))).2 by
                simp [expandNeighbors, h1, h2, hl, newNode]]
              rw [hc, lookup_insert_ne allN nb p _ hp]
            · have hlt : lookupNode (insertNode allN nb (newNode cur goal nb)) p =
                  lookupNode allN p := lookup_insert_ne allN nb p _ hp
              refine Or.inr ⟨List.mem_cons_of_mem _ hc.1, hc.2.1, hc.2.2.1, ?_, ?_, ?_⟩
              · rw [show (expandNeighbors cur goal obstacles closed (nb :: rest) openL allN).2 =
                    (expandNeighbors cur goal obstacles closed rest
                      (openL ++ [newNode cur goal nb])
                      (insertNode allN nb (newNode cur goal nb))).2 by
                  simp [expandNeighbors, h1, h2, hl, newNode]]
                exact hc.2.2.2.1
              · rw [show (expandNeighbors cur goal obstacles closed (nb :: rest) openL allN).1 =
                    (expandNeighbors cur goal obstacles closed rest
                      (openL ++ [newNode cur goal nb])
                      (insertNode allN nb (newNode cur goal nb))).1 by
                  simp [expandNeighbors, h1, h2, hl, newNode]]
                exact hc.2.2.2.2.1
              · rw [hlt] at hc
                exact hc.2.2.2.2.2
        | some old =>
          by_cases h3 : cur.gCost + 1 < old.gCost
          · by_cases hp : p = nb
            · subst hp
              have hself : lookupNode (insertNode allN p (newNode cur goal p)) p =
                  some (newNode cur goal p) := lookup_insert_self allN p _
              rcases ih (openL ++ [newNode cur goal p])
                  (insertNode allN p (newNode cur goal p)) p with hc | hc
              · refine Or.inr ⟨List.mem_cons_self _ _, h1, hval, ?_, ?_, Or.inr ⟨old, hl, h3⟩⟩
                · rw [show (expandNeighbors cur goal obstacles closed (p :: rest) openL allN).2 =
                      (expandNeighbors cur goal obstacles closed rest
                        (openL ++ [newNode cur goal p])
                        (insertNode allN p (newNode cur goal p))).2 by
                    simp [expandNeighbors, h1, h2, hl, if_pos h3, newNode]]
                  rw [hc, hself]
                · obtain ⟨extra, he⟩ := expand_open_extends cur goal obstacles closed rest
                    (openL ++ [newNode cur goal p]) (insertNode allN p (newNode cur goal p))
                  rw [show (expandNeighbors cur goal obstacles closed (p :: rest) openL allN).1 =
                      (expandNeighbors cur goal obstacles closed rest
                        (openL ++ [newNode cur goal p])
                        (insertNode allN p (newNode cur goal p))).1 by
                    simp [expandNeighbors, h1, h2, hl, if_pos h3, newNode]]
                  rw [he]
                  simp
              · exfalso
                rcases hc.2.2.2.2.2 with hbad | hbad
                · rw [hself] at hbad
                  exact Option.noConfusion hbad
                · obtain ⟨old2, hold2, hlt2⟩ := hbad
                  rw [hself] at hold2
                  have : old2 = newNode cur goal p := (Option.some.inj hold2).symm
                  subst this
                  simp [newNode] at hlt2
            · rcases ih (openL ++ [newNode cur goal nb])
                  (insertNode allN nb (newNode cur goal nb)) p with hc | hc
              · refine Or.inl ?_
                rw [show (expandNeighbors cur goal obstacles closed (nb :: rest) openL allN).2 =
                    (expandNeighbors cur goal obstacles closed rest
                      (openL ++ [newNode cur goal nb])
                      (insertNode allN nb (newNode cur goal nb))).2 by
                  simp [expandNeighbors, h1, h2, hl, if_pos h3, newNode]]
                rw [hc, lookup_insert_ne allN nb p _ hp]
              · have hlt : lookupNode (insertNode allN nb (newNode cur goal nb)) p =
                    lookupNode allN p := lookup_insert_ne allN nb p _ hp
                refine Or.inr ⟨List.mem_cons_of_mem _ hc.1, hc.2.1, hc.2.2.1, ?_, ?_, ?_⟩
                · rw [show (expandNeighbors cur goal obstacles closed (nb :: rest) openL allN).2 =
                      (expandNeighbors cur goal obstacles closed rest
                        (openL ++ [newNode cur goal nb])
                        (insertNode allN nb (newNode cur goal nb))).2 by
                    simp [expandNeighbors, h1, h2, hl, if_pos h3, newNode]]
                  exact hc.2.2.2.1
                · rw [show (expandNeighbors cur goal obstacles closed (nb :: rest) openL allN).1 =
                      (expandNeighbors cur goal obstacles closed rest
                        (openL ++ [newNode cur goal nb])
                        (insertNode allN nb (newNode cur goal nb))).1 by
                    simp [expandNeighbors, h1, h2, hl, if_pos h3, newNode]]
                  exact hc.2.2.2.2.1
                · rw [hlt] at hc
                  exact hc.2.2.2.2.2
          · rcases ih openL allN p with hc | hc
            · exact Or.inl (by simpa [expandNeighbors, h1, h2, hl, h3] using hc)
            · refine Or.inr ⟨List.mem_cons_of_mem _ hc.1, hc.2.1, hc.2.2.1, ?_, ?_,
                hc.2.2.2.2.2⟩
              · simpa [expandNeighbors, h1, h2, hl, h3] using hc.2.2.2.1
              · simpa [expandNeighbors, h1, h2, hl, h3] using hc.2.2.2.2.1

theorem expand_relax_bound (cur : AStarNode) (goal : Position3D)
    (obstacles closed : List Position3D) (nbs : List Position3D) :
    ∀ openL allN p, p ∈ nbs → p ∉ closed → isValidPosition obstacles p = true →
      ∃ nd2, lookupNode (expandNeighbors cur goal obstacles closed nbs openL allN).2 p =
        some nd2 ∧ nd2.gCost ≤ cur.gCost + 1 := by
  induction nbs with
  | nil =>
    intro openL allN p hmem
    simp at hmem
  | cons nb rest ih =>
    intro openL allN p hmem hncl hval
    by_cases hp : p = nb
    · subst hp
      have h1 : ¬ p ∈ closed := hncl
      have h2 : ¬ isValidPosition obstacles p = false := by
        rw [hval]; simp
      cases hl : lookupNode allN p with
      | none =>
        have hself : lookupNode (insertNode allN p (newNode cur goal p)) p =
            some (newNode cur goal p) := lookup_insert_self allN p _
        obtain ⟨nd2, hnd2, hle⟩ := expand_lookup_mono cur goal obstacles closed rest
          (openL ++ [newNode cur goal p]) (insertNode allN p (newNode cur goal p))
          p (newNode cur goal p) hself
        refine ⟨nd2, ?_, ?_⟩
        · rw [show (expandNeighbors cur goal obstacles closed (p :: rest) openL allN).2 =
              (expandNeighbors cur goal obstacles closed rest
                (openL ++ [newNode cur goal p])
                (insertNode allN p (newNode cur goal p))).2 by
            simp [expandNeighbors, h1, h2, hl, newNode]]
          exact hnd2
        · exact le_trans hle (by simp [newNode])
      | some old =>
        by_cases h3 : cur.gCost + 1 < old.gCost
        · have hself : lookupNode (insertNode allN p (newNode cur goal p)) p =
              some (newNode cur goal p) := lookup_insert_self allN p _
          obtain ⟨nd2, hnd2, hle⟩ := expand_lookup_mono cur goal obstacles closed rest
            (openL ++ [newNode cur goal p]) (insertNode allN p (newNode cur goal p))
            p (newNode cur goal p) hself
          refine ⟨nd2, ?_, ?_⟩
          · rw [show (expandNeighbors cur goal obstacles closed (p :: rest) openL allN).2 =
                (expandNeighbors cur goal obstacles closed rest
                  (openL ++ [newNode cur goal p])
                  (insertNode allN p (newNode cur goal p))).2 by
              simp [expandNeighbors, h1, h2, hl, if_pos h3, newNode]]
            exact hnd2
          · exact le_trans hle (by simp [newNode])
        · have hle2 : old.gCost ≤ cur.gCost + 1 := Nat.le_of_not_lt h3
          obtain ⟨nd2, hnd2, hle⟩ := expand_lookup_mono cur goal obstacles closed rest
            openL allN p old hl
          refine ⟨nd2, ?_, le_trans hle hle2⟩
          rw [show (expandNeighbors cur goal obstacles closed (p :: rest) openL allN).2 =
              (expandNeighbors cur goal obstacles closed rest openL allN).2 by
            simp [expandNeighbors, h1, h2, hl, h3]]
          exact hnd2
    · have hmem2 : p ∈ rest := by
        rcases List.mem_cons.mp hmem with hh | hh
        · exact absurd hh hp
        · exact hh
      by_cases h1 : nb ∈ closed
      · rw [show (expandNeighbors cur goal obstacles closed (nb :: rest) openL allN).2 =
            (expandNeighbors cur goal obstacles closed rest openL allN).2 by
          simp [expandNeighbors, h1]]
        exact ih openL allN p hmem2 hncl hval
      · by_cases h2 : isValidPosition obstacles nb = false
        · rw [show (expandNeighbors cur goal obstacles closed (nb :: rest) openL allN).2 =
              (expandNeighbors cur goal obstacles closed rest openL allN).2 by
            simp [expandNeighbors, h1, h2]]
          exact ih openL allN p hmem2 hncl hval
        · cases hl : lookupNode allN nb with
          | none =>
            rw [show (expandNeighbors cur goal obstacles closed (nb :: rest) openL allN).2 =
                (expandNeighbors cur goal obstacles closed rest
                  (openL ++ [newNode cur goal nb])
                  (insertNode allN nb (newNode cur goal nb))).2 by
              simp [expandNeighbors, h1, h2, hl, newNode]]
            exact ih _ _ p hmem2 hncl hval
          | some old =>
            by_cases h3 : cur.gCost + 1 < old.gCost
            · rw [show (expandNeighbors cur goal obstacles closed (nb :: rest) openL allN).2 =
                  (expandNeighbors cur goal obstacles closed rest
                    (openL ++ [newNode cur goal nb])
                    (insertNode allN nb (newNode cur goal nb))).2 by
                simp [expandNeighbors, h1, h2, hl, if_pos h3, newNode]]
              exact ih _ _ p hmem2 hncl hval
            · rw [show (expandNeighbors cur goal obstacles closed (nb :: rest) openL allN).2 =
                  (expandNeighbors cur goal obstacles closed rest openL allN).2 by
                simp [expandNeighbors, h1, h2, hl, h3]]
              exact ih openL allN p hmem2 hncl hval

theorem expand_nodup (cur : AStarNode) (goal : Position3D)
    (obstacles closed : List Position3D) (nbs : List Position3D) :
    ∀ openL allN, (keysOf allN).Nodup →
      (keysOf (expandNeighbors cur goal obstacles closed nbs openL allN).2).Nodup := by
  induction nbs with
  | nil =>
    intro openL allN h
    simpa [expandNeighbors] using h
  | cons nb rest ih =>
    intro openL allN h
    by_cases h1 : nb ∈ closed
    · rw [show (expandNeighbors cur goal obstacles closed (nb :: rest) openL allN).2 =
          (expandNeighbors cur goal obstacles closed rest openL allN).2 by
        simp [expandNeighbors, h1]]
      exact ih openL allN h
    · by_cases h2 : isValidPosition obstacles nb = false
      · rw [show (expandNeighbors cur goal obstacles closed (nb :: rest) openL allN).2 =
            (expandNeighbors cur goal obstacles closed rest openL allN).2 by
          simp [expandNeighbors, h1, h2]]
        exact ih openL allN h
      · cases hl : lookupNode allN nb with
        | none =>
          rw [show (expandNeighbors cur goal obstacles closed (nb :: rest) openL allN).2 =
              (expandNeighbors cur goal obstacles closed rest
                (openL ++ [newNode cur goal nb])
                (insertNode allN nb (newNode cur goal nb))).2 by
            simp [expandNeighbors, h1, h2, hl, newNode]]
          exact ih _ _ (nodup_keys_insert allN nb _ h)
        | some old =>
          by_cases h3 : cur.gCost + 1 < old.gCost
          · rw [show (expandNeighbors cur goal obstacles closed (nb :: rest) openL allN).2 =
                (expandNeighbors cur goal obstacles closed rest
                  (openL ++ [newNode cur goal nb])
                  (insertNode allN nb (newNode cur goal nb))).2 by
              simp [expandNeighbors, h1, h2, hl, if_pos h3, newNode]]
            exact ih _ _ (nodup_keys_insert allN nb _ h)
          · rw [show (expandNeighbors cur goal obstacles closed (nb :: rest) openL allN).2 =
                (expandNeighbors cur goal obstacles closed rest openL allN).2 by
              simp [expandNeighbors, h1, h2, hl, h3]]
            exact ih openL allN h

theorem expand_closed_frame (cur : AStarNode) (goal : Position3D)
    (obstacles closed : List Position3D) (nbs : List Position3D)
    (openL : List AStarNode) (allN : List (Position3D × AStarNode))
    (p : Position3D) (hp : p ∈ closed) :
    lookupNode (expandNeighbors cur goal obstacles closed nbs openL allN).2 p =
      lookupNode allN p := by
  rcases expand_char cur goal obstacles closed nbs openL allN p with hc | hc
  · exact hc
  · exact absurd hp hc.2.1

/- ===== Lemmas on path reconstruction ===== -/

theorem reconChain_spec (start : Position3D) (allN : List (Position3D × AStarNode))
    (closed : List Position3D) (hP : parentInv start allN closed) :
    ∀ g fuel v nd, lookupNode allN v = some nd → nd.gCost = g → g ≤ fuel →
      (reconChain allN fuel v).length = g + 1 ∧
      (reconChain allN fuel v).head? = some v ∧
      (reconChain allN fuel v).getLast? = some start ∧
      List.Chain' (fun a b => a ∈ getNeighbors b) (reconChain allN fuel v) ∧
      (∀ c ∈ reconChain allN fuel v, ∃ nc, lookupNode allN c = some nc) := by
  intro g
  induction g with
  | zero =>
    intro fuel v nd h hg _
    cases hb : nd.hasParent with
    | true =>
      obtain ⟨_, _, pn, _, hgp⟩ := (hP v nd h).2 hb
      omega
    | false =>
      obtain ⟨hv, _⟩ := (hP v nd h).1 hb
      subst hv
      have hch : reconChain allN fuel v = [v] := by
        cases fuel with
        | zero => simp [reconChain]
        | succ f => simp [reconChain, h, hb]
      rw [hch]
      refine ⟨rfl, rfl, rfl, List.chain'_singleton v, ?_⟩
      intro c hc
      simp at hc
      subst hc
      exact ⟨nd, h⟩
  | succ k ih =>
    intro fuel v nd h hg hfuel
    cases hb : nd.hasParent with
    | false =>
      obtain ⟨_, hz⟩ := (hP v nd h).1 hb
      omega
    | true =>
      obtain ⟨hvadj, _, pn, hpn, hgp⟩ := (hP v nd h).2 hb
      have hpk : pn.gCost = k := by omega
      cases fuel with
      | zero => omega
      | succ f =>
        have hch : reconChain allN (f + 1) v = v :: reconChain allN f nd.parent := by
          simp [reconChain, h, hb]
        have hkf : k ≤ f := by omega
        obtain ⟨hlen, hhead, hlast, hchain, hmem⟩ := ih f nd.parent pn hpn hpk hkf
        obtain ⟨t0, ts, htail⟩ : ∃ t0 ts, reconChain allN f nd.parent = t0 :: ts := by
          cases hc : reconChain allN f nd.parent with
          | nil => rw [hc] at hlen; simp at hlen
          | cons t0 ts => exact ⟨t0, ts, rfl⟩
        have ht0 : t0 = nd.parent := by
          rw [htail] at hhead
          simpa using hhead
        rw [hch, htail]
        refine ⟨?_, rfl, ?_, ?_, ?_⟩
        · rw [htail] at hlen
          simpa using hlen
        · rw [htail] at hlast
          rw [List.getLast?_cons_cons]
          exact hlast
        · rw [htail] at hchain
          rw [List.chain'_cons]
          exact ⟨by rw [ht0]; exact hvadj, hchain⟩
        · intro c hc
          rcases List.mem_cons.mp hc with hc | hc
          · subst hc
            exact ⟨nd, h⟩
          · exact hmem c (by rw [htail]; exact hc)

theorem chain_keys_list (start : Position3D) (allN : List (Position3D × AStarNode))
    (closed : List Position3D) (hP : parentInv start allN closed) :
    ∀ g v nd, lookupNode allN v = some nd → nd.gCost = g →
      ∃ l : List Position3D, l.length = g + 1 ∧ l.Nodup ∧
        (∀ w ∈ l, ∃ nw, lookupNode allN w = some nw ∧ nw.gCost ≤ g) := by
  intro g
  induction g with
  | zero =>
    intro v nd h hg
    refine ⟨[v], rfl, List.nodup_singleton v, ?_⟩
    intro w hw
    simp at hw
    subst hw
    exact ⟨nd, h, by omega⟩
  | succ k ih =>
    intro v nd h hg
    cases hb : nd.hasParent with
    | false =>
      obtain ⟨_, hz⟩ := (hP v nd h).1 hb
      omega
    | true =>
      obtain ⟨_, _, pn, hpn, hgp⟩ := (hP v nd h).2 hb
      have hpk : pn.gCost = k := by omega
      obtain ⟨l, hlen, hnd2, hbound⟩ := ih nd.parent pn hpn hpk
      refine ⟨v :: l, by simp [hlen], ?_, ?_⟩
      · rw [List.nodup_cons]
        refine ⟨?_, hnd2⟩
        intro hvl
        obtain ⟨nw, hnw, hle⟩ := hbound v hvl
        rw [h] at hnw
        have : nd = nw := Option.some.inj hnw
        subst this
        omega
      · intro w hw
        rcases List.mem_cons.mp hw with hw | hw
        · subst hw
          exact ⟨nd, h, by omega⟩
        · obtain ⟨nw, hnw, hle⟩ := hbound w hw
          exact ⟨nw, hnw, by omega⟩

theorem g_lt_length (start : Position3D) (allN : List (Position3D × AStarNode))
    (closed : List Position3D) (hP : parentInv start allN closed)
    (_hN : (keysOf allN).Nodup) (v : Position3D) (nd : AStarNode)
    (h : lookupNode allN v = some nd) : nd.gCost < allN.length := by
  obtain ⟨l, hlen, hnd2, hbound⟩ := chain_keys_list start allN closed hP nd.gCost v nd h rfl
  have hsub : l ⊆ keysOf allN := by
    intro w hw
    obtain ⟨nw, hnw, _⟩ := hbound w hw
    exact mem_keys_of_lookup allN w nw hnw
  have h1 : l.toFinset.card = l.length := List.toFinset_card_of_nodup hnd2
  have h2 : l.toFinset ⊆ (keysOf allN).toFinset := by
    intro x hx
    rw [List.mem_toFinset] at hx ⊢
    exact hsub hx
  have h3 : l.toFinset.card ≤ (keysOf allN).toFinset.card := Finset.card_le_card h2
  have h4 : (keysOf allN).toFinset.card ≤ (keysOf allN).length :=
    (keysOf allN).toFinset_card_le
  have h5 : (keysOf allN).length = allN.length := length_keys allN
  omega

theorem reconstructPath_spec (start : Position3D) (allN : List (Position3D × AStarNode))
    (closed : List Position3D) (hP : parentInv start allN closed)
    (hN : (keysOf allN).Nodup) (v : Position3D) (nd : AStarNode)
    (h : lookupNode allN v = some nd) :
    (reconstructPath allN v).length = nd.gCost + 1 ∧
    (reconstructPath allN v).head? = some start ∧
    (reconstructPath allN v).getLast? = some v ∧
    List.Chain' (fun a b => b ∈ getNeighbors a) (reconstructPath allN v) ∧
    (∀ c ∈ reconstructPath allN v, ∃ nc, lookupNode allN c = some nc) := by
  have hfuel : nd.gCost ≤ allN.length :=
    le_of_lt (g_lt_length start allN closed hP hN v nd h)
  obtain ⟨hlen, hhead, hlast, hchain, hmem⟩ :=
    reconChain_spec start allN closed hP nd.gCost allN.length v nd h rfl hfuel
  unfold reconstructPath
  refine ⟨by simpa using hlen, ?_, ?_, ?_, ?_⟩
  · rw [List.head?_reverse]
    exact hlast
  · rw [List.getLast?_reverse]
    exact hhead
  · rw [List.chain'_reverse]
    exact hchain
  · intro c hc
    rw [List.mem_reverse] at hc
    exact hmem c hc

/- ===== Small facts about neighbors and validity ===== -/

theorem isValid_true_iff (obstacles : List Position3D) (p : Position3D) :
    isValidPosition obstacles p = true ↔ p ∉ obstacles := by
  unfold isValidPosition
  by_cases h : p ∈ obstacles <;> simp [h]

theorem neighbors_y (p q : Position3D) (h : q ∈ getNeighbors p) : q.y = p.y := by
  simp [getNeighbors] at h
  rcases h with h | h | h | h <;> (subst h; rfl)

theorem neighbors_unitStep (a b : Position3D) (h : b ∈ getNeighbors a) : unitStep a b := by
  simp [getNeighbors] at h
  rcases h with h | h | h | h <;> subst h <;> simp [unitStep]

theorem neighbors_heuristic (s a b : Position3D) (h : b ∈ getNeighbors a) :
    calculateHeuristic s b ≤ calculateHeuristic s a + 1 ∧
    calculateHeuristic s a ≤ calculateHeuristic s b + 1 := by
  simp [getNeighbors] at h
  rcases h with h | h | h | h <;> subst h <;> (unfold calculateHeuristic; constructor <;> (simp; omega))

theorem expand_open_members (cur : AStarNode) (goal : Position3D)
    (obstacles closed : List Position3D) (nbs : List Position3D) :
    ∀ openL allN e, e ∈ (expandNeighbors cur goal obstacles closed nbs openL allN).1 →
      e ∈ openL ∨ ∃ q, q ∈ nbs ∧ q ∉ closed ∧ isValidPosition obstacles q = true ∧
        e = newNode cur goal q := by
  induction nbs with
  | nil =>
    intro openL allN e he
    exact Or.inl (by simpa [expandNeighbors] using he)
  | cons nb rest ih =>
    intro openL allN e he
    by_cases h1 : nb ∈ closed
    · rcases ih openL allN e (by simpa [expandNeighbors, h1] using he) with hc | ⟨q, hq⟩
      · exact Or.inl hc
      · exact Or.inr ⟨q, List.mem_cons_of_mem _ hq.1, hq.2.1, hq.2.2.1, hq.2.2.2⟩
    · by_cases h2 : isValidPosition obstacles nb = false
      · rcases ih openL allN e (by simpa [expandNeighbors, h1, h2] using he) with hc | ⟨q, hq⟩
        · exact Or.inl hc
        · exact Or.inr ⟨q, List.mem_cons_of_mem _ hq.1, hq.2.1, hq.2.2.1, hq.2.2.2⟩
      · have hval : isValidPosition obstacles nb = true := by
          cases hb : isValidPosition obstacles nb
          · exact absurd hb h2
          · rfl
        cases hl : lookupNode allN nb with
        | none =>
          have he2 : e ∈ (expandNeighbors cur goal obstacles closed rest
              (openL ++ [newNode cur goal nb])
              (insertNode allN nb (newNode cur goal nb))).1 := by
            rw [show (expandNeighbors cur goal obstacles closed (nb :: rest) openL allN).1 =
                (expandNeighbors cur goal obstacles closed rest
                  (openL ++ [newNode cur goal nb])
                  (insertNode allN nb (newNode cur goal nb))).1 by
              simp [expandNeighbors, h1, h2, hl, newNode]] at he
            exact he
          rcases ih _ _ e he2 with hc | ⟨q, hq⟩
          · rcases List.mem_append.mp hc with hc | hc
            · exact Or.inl hc
            · simp at hc
              exact Or.inr ⟨nb, List.mem_cons_self _ _, h1, hval, hc⟩
          · exact Or.inr ⟨q, List.mem_cons_of_mem _ hq.1, hq.2.1, hq.2.2.1, hq.2.2.2⟩
        | some old =>
          by_cases h3 : cur.gCost + 1 < old.gCost
          · have he2 : e ∈ (expandNeighbors cur goal obstacles closed rest
                (openL ++ [newNode cur goal nb])
                (insertNode allN nb (newNode cur goal nb))).1 := by
              rw [show (expandNeighbors cur goal obstacles closed (nb :: rest) openL allN).1 =
                  (expandNeighbors cur goal obstacles closed rest
                    (openL ++ [newNode cur goal nb])
                    (insertNode allN nb (newNode cur goal nb))).1 by
                simp [expandNeighbors, h1, h2, hl, if_pos h3, newNode]] at he
              exact he
            rcases ih _ _ e he2 with hc | ⟨q, hq⟩
            · rcases List.mem_append.mp hc with hc | hc
              · exact Or.inl hc
              · simp at hc
                exact Or.inr ⟨nb, List.mem_cons_self _ _, h1, hval, hc⟩
            · exact Or.inr ⟨q, List.mem_cons_of_mem _ hq.1, hq.2.1, hq.2.2.1, hq.2.2.2⟩
          · rcases ih openL allN e
                (by simpa [expandNeighbors, h1, h2, hl, h3] using he) with hc | ⟨q, hq⟩
            · exact Or.inl hc
            · exact Or.inr ⟨q, List.mem_cons_of_mem _ hq.1, hq.2.1, hq.2.2.1, hq.2.2.2⟩

theorem expand_keys_super (cur : AStarNode) (goal : Position3D)
    (obstacles closed : List Position3D) (nbs : List Position3D)
    (openL : List AStarNode) (allN : List (Position3D × AStarNode))
    (p : Position3D) (hp : p ∈ keysOf allN) :
    p ∈ keysOf (expandNeighbors cur goal obstacles closed nbs openL allN).2 := by
  obtain ⟨nd, hnd⟩ := lookup_of_mem_keys allN p hp
  obtain ⟨nd2, hnd2, _⟩ := expand_lookup_mono cur goal obstacles closed nbs openL allN p nd hnd
  exact mem_keys_of_lookup _ p nd2 hnd2

/- ===== The popped entry carries the stored gCost ===== -/

theorem pop_g_eq (goal : Position3D) (allN : List (Position3D × AStarNode))
    (openL : List AStarNode) (closed : List Position3D)
    (hE : openEntriesInv goal allN openL) (hW : openWitnessInv allN openL closed)
    (cur : AStarNode) (rest : List AStarNode)
    (hpop : popMin openL = some (cur, rest)) (hncl : cur.position ∉ closed) :
    ∃ nd, lookupNode allN cur.position = some nd ∧ nd.gCost = cur.gCost := by
  have hcur_mem : cur ∈ openL := by
    have := popMin_perm openL cur rest hpop
    exact this.symm.subset (List.mem_cons_self _ _)
  obtain ⟨hh, hf, nd, hnd, hle⟩ := hE cur hcur_mem
  obtain ⟨w, hwmem, hwpos, hwg⟩ := hW cur.position nd hnd hncl
  obtain ⟨hwh, hwf, _⟩ := hE w hwmem
  have hmin : cur.fCost ≤ w.fCost := popMin_min openL cur rest hpop w hwmem
  rw [hf, hwf, hh, hwh, hwpos, hwg] at hmin
  exact ⟨nd, hnd, by omega⟩

/- ===== One loop iteration preserves the general invariant ===== -/

theorem step_GInv (start goal : Position3D) (obstacles : List Position3D)
    (openL : List AStarNode) (allN : List (Position3D × AStarNode))
    (closed : List Position3D) (cur : AStarNode) (rest : List AStarNode)
    (hG : GInv start goal obstacles openL allN closed)
    (hpop : popMin openL = some (cur, rest))
    (hncl : cur.position ∉ closed) :
    GInv start goal obstacles
      (expandNeighbors cur goal obstacles (cur.position :: closed)
        (getNeighbors cur.position) rest allN).1
      (expandNeighbors cur goal obstacles (cur.position :: closed)
        (getNeighbors cur.position) rest allN).2
      (cur.position :: closed) := by
  obtain ⟨hnodup, hclsub, hvalid, hy, hpar, hopenE, hopenW⟩ := hG
  obtain ⟨ndc, hndc, hndcg⟩ := pop_g_eq goal allN openL closed hopenE hopenW cur rest hpop hncl
  have hperm := popMin_perm openL cur rest hpop
  have hrest_sub : ∀ e ∈ rest, e ∈ openL := by
    intro e he
    exact hperm.symm.subset (List.mem_cons_of_mem _ he)
  obtain ⟨extra, hextra⟩ := expand_open_extends cur goal obstacles (cur.position :: closed)
    (getNeighbors cur.position) rest allN
  refine ⟨?_, ?_, ?_, ?_, ?_, ?_, ?_⟩
  · exact expand_nodup cur goal obstacles (cur.position :: closed)
      (getNeighbors cur.position) rest allN hnodup
  · intro c hc
    rcases List.mem_cons.mp hc with hc | hc
    · subst hc
      exact expand_keys_super cur goal obstacles _ _ rest allN _
        (mem_keys_of_lookup allN _ ndc hndc)
    · exact expand_keys_super cur goal obstacles _ _ rest allN _ (hclsub c hc)
  · intro p hp
    obtain ⟨nd, hnd⟩ := lookup_of_mem_keys _ p hp
    rcases expand_char cur goal obstacles (cur.position :: closed)
        (getNeighbors cur.position) rest allN p with hc | hc
    · rw [hc] at hnd
      exact hvalid p (mem_keys_of_lookup allN p nd hnd)
    · exact Or.inr ((isValid_true_iff obstacles p).mp hc.2.2.1)
  · intro p hp
    obtain ⟨nd, hnd⟩ := lookup_of_mem_keys _ p hp
    rcases expand_char cur goal obstacles (cur.position :: closed)
        (getNeighbors cur.position) rest allN p with hc | hc
    · rw [hc] at hnd
      exact hy p (mem_keys_of_lookup allN p nd hnd)
    · have h1 : p.y = cur.position.y := neighbors_y cur.position p hc.1
      have h2 : cur.position.y = start.y :=
        hy cur.position (mem_keys_of_lookup allN _ ndc hndc)
      rw [h1, h2]
  · intro p nd hnd
    rcases expand_char cur goal obstacles (cur.position :: closed)
        (getNeighbors cur.position) rest allN p with hc | hc
    · rw [hc] at hnd
      have hold := hpar p nd hnd
      refine ⟨hold.1, ?_⟩
      intro hb
      obtain ⟨hadj, hclp, pn, hpn, hg⟩ := hold.2 hb
      refine ⟨hadj, List.mem_cons_of_mem _ hclp, pn, ?_, hg⟩
      rw [expand_closed_frame cur goal obstacles (cur.position :: closed)
        (getNeighbors cur.position) rest allN nd.parent (List.mem_cons_of_mem _ hclp)]
      exact hpn
    · obtain ⟨hpmem, hpncl2, hpvalid, hplook, hpopen, hpold⟩ := hc
      have hnd_eq : nd = newNode cur goal p := by
        rw [hplook] at hnd
        exact Option.some.inj hnd.symm
      constructor
      · intro hb
        rw [hnd_eq] at hb
        simp [newNode] at hb
      · intro _
        rw [hnd_eq]
        refine ⟨?_, ?_, ndc, ?_, ?_⟩
        · simpa [newNode] using hpmem
        · simp [newNode]
        · have : (newNode cur goal p).parent = cur.position := by simp [newNode]
          rw [this]
          rw [expand_closed_frame cur goal obstacles (cur.position :: closed)
            (getNeighbors cur.position) rest allN cur.position (List.mem_cons_self _ _)]
          exact hndc
        · simp [newNode]
          omega
  · intro e he
    rcases expand_open_members cur goal obstacles (cur.position :: closed)
        (getNeighbors cur.position) rest allN e he with hc | ⟨q, hq1, hq2, hq3, hq4⟩
    · obtain ⟨hh, hf, nd, hnd, hle⟩ := hopenE e (hrest_sub e hc)
      obtain ⟨nd2, hnd2, hle2⟩ := expand_lookup_mono cur goal obstacles
        (cur.position :: closed) (getNeighbors cur.position) rest allN e.position nd hnd
      exact ⟨hh, hf, nd2, hnd2, le_trans hle2 hle⟩
    · subst hq4
      obtain ⟨nd2, hnd2, hle2⟩ := expand_relax_bound cur goal obstacles
        (cur.position :: closed) (getNeighbors cur.position) rest allN q hq1 hq2 hq3
      refine ⟨by simp [newNode], by simp [newNode], nd2, ?_, ?_⟩
      · simpa [newNode] using hnd2
      · simpa [newNode] using hle2
  · intro p nd hnd hncl2
    have hpne : p ≠ cur.position := by
      intro hh
      exact hncl2 (hh ▸ List.mem_cons_self _ _)
    have hpncl : p ∉ closed := fun hh => hncl2 (List.mem_cons_of_mem _ hh)
    rcases expand_char cur goal obstacles (cur.position :: closed)
        (getNeighbors cur.position) rest allN p with hc | hc
    · rw [hc] at hnd
      obtain ⟨e, hemem, hepos, heg⟩ := hopenW p nd hnd hpncl
      have he2 : e ∈ cur :: rest := hperm.subset hemem
      rcases List.mem_cons.mp he2 with he2 | he2
      · exfalso
        apply hpne
        rw [← hepos, he2]
      · refine ⟨e, ?_, hepos, heg⟩
        rw [hextra]
        exact List.mem_append_left _ he2
    · obtain ⟨hpmem, _, _, hplook, hpopen, _⟩ := hc
      have hnd_eq : nd = newNode cur goal p := by
        rw [hplook] at hnd
        exact Option.some.inj hnd.symm
      refine ⟨newNode cur goal p, hpopen, by simp [newNode], ?_⟩
      rw [hnd_eq]

/- ===== The general result facts of the search loop ===== -/

theorem loop_general (start goal : Position3D) (obstacles : List Position3D) :
    ∀ fuel openL allN closed, GInv start goal obstacles openL allN closed →
      aStarLoop goal obstacles fuel openL allN closed = [] ∨
      ((aStarLoop goal obstacles fuel openL allN closed).head? = some start ∧
       List.Chain' (fun a b => b ∈ getNeighbors a)
         (aStarLoop goal obstacles fuel openL allN closed) ∧
       (∀ c ∈ aStarLoop goal obstacles fuel openL allN closed,
         c = start ∨ c ∉ obstacles)) := by
  intro fuel
  induction fuel with
  | zero =>
    intro openL allN closed _
    exact Or.inl rfl
  | succ f ih =>
    intro openL allN closed hG
    cases hpop : popMin openL with
    | none =>
      exact Or.inl (by simp [aStarLoop, hpop])
    | some pr =>
      obtain ⟨cur, rest⟩ := pr
      have hperm := popMin_perm openL cur rest hpop
      have hrest_sub : ∀ e ∈ rest, e ∈ openL := by
        intro e he
        exact hperm.symm.subset (List.mem_cons_of_mem _ he)
      by_cases hmem : cur.position ∈ closed
      · have hred : aStarLoop goal obstacles (f + 1) openL allN closed =
            aStarLoop goal obstacles f rest allN closed := by
          simp [aStarLoop, hpop, hmem]
        rw [hred]
        apply ih
        obtain ⟨h1, h2, h3, h4, h5, h6, h7⟩ := hG
        refine ⟨h1, h2, h3, h4, h5, ?_, ?_⟩
        · intro e he
          exact h6 e (hrest_sub e he)
        · intro p nd hnd hpn
          obtain ⟨e, hemem, hepos, heg⟩ := h7 p nd hnd hpn
          rcases List.mem_cons.mp (hperm.subset hemem) with hh | hh
          · exfalso
            apply hpn
            rw [← hepos, hh]
            exact hmem
          · exact ⟨e, hh, hepos, heg⟩
      · by_cases hacc : goalAccepted cur.position goal
        · have hred : aStarLoop goal obstacles (f + 1) openL allN closed =
              reconstructPath allN cur.position := by
            simp [aStarLoop, hpop, hmem, hacc]
          rw [hred]
          obtain ⟨h1, h2, h3, h4, h5, h6, h7⟩ := hG
          obtain ⟨ndc, hndc, _⟩ := pop_g_eq goal allN openL closed h6 h7 cur rest hpop hmem
          obtain ⟨_, hhead, _, hchain, hmemb⟩ :=
            reconstructPath_spec start allN closed h5 h1 cur.position ndc hndc
          refine Or.inr ⟨hhead, hchain, ?_⟩
          intro c hc
          obtain ⟨nc, hnc⟩ := hmemb c hc
          exact h3 c (mem_keys_of_lookup allN c nc hnc)
        · have hred : aStarLoop goal obstacles (f + 1) openL allN closed =
              aStarLoop goal obstacles f
                (expandNeighbors cur goal obstacles (cur.position :: closed)
                  (getNeighbors cur.position) rest allN).1
                (expandNeighbors cur goal obstacles (cur.position :: closed)
                  (getNeighbors cur.position) rest allN).2
                (cur.position :: closed) := by
            simp [aStarLoop, hpop, hmem, hacc]
          rw [hred]
          exact ih _ _ _ (step_GInv start goal obstacles openL allN closed cur rest hG hpop hmem)

/-- The initial search state of findPath satisfies the general invariant. -/
theorem findPath_init_GInv (start goal : Position3D) (obstacles : List Position3D) :
    GInv start goal obstacles
      [⟨start, 0, calculateHeuristic start goal, calculateHeuristic start goal, ⟨0, 0, 0⟩, false⟩]
      [(start, ⟨start, 0, calculateHeuristic start goal, calculateHeuristic start goal,
        ⟨0, 0, 0⟩, false⟩)]
      [] := by
  refine ⟨by simp [keysOf], by simp, ?_, ?_, ?_, ?_, ?_⟩
  · intro p hp
    simp [keysOf] at hp
    exact Or.inl hp
  · intro p hp
    simp [keysOf] at hp
    rw [hp]
  · intro p nd hnd
    simp [lookupNode] at hnd
    obtain ⟨hp, hnode⟩ := hnd
    subst hp
    rw [← hnode]
    constructor
    · intro _
      exact ⟨rfl, rfl⟩
    · intro hb
      simp at hb
  · intro e he
    simp at he
    subst he
    refine ⟨rfl, by simp, ?_⟩
    refine ⟨_, by simp [lookupNode], le_refl _⟩
  · intro p nd hnd _
    simp [lookupNode] at hnd
    obtain ⟨hp, hnode⟩ := hnd
    subst hp
    exact ⟨_, List.mem_singleton_self _, rfl, by rw [← hnode]⟩

/-- Every path findPath returns starts at the start cell, proceeds by unit
cardinal steps, and avoids every obstacle cell other than the start. -/
theorem findPath_general (start goal : Position3D) (obstacles : List Position3D) :
    findPath start goal obstacles = [] ∨
    ((findPath start goal obstacles).head? = some start ∧
     List.Chain' (fun a b => b ∈ getNeighbors a) (findPath start goal obstacles) ∧
     (∀ c ∈ findPath start goal obstacles, c = start ∨ c ∉ obstacles)) := by
  have := loop_general start goal obstacles MAX_NODES
    [⟨start, 0, calculateHeuristic start goal, calculateHeuristic start goal, ⟨0, 0, 0⟩, false⟩]
    [(start, ⟨start, 0, calculateHeuristic start goal, calculateHeuristic start goal,
      ⟨0, 0, 0⟩, false⟩)]
    [] (findPath_init_GInv start goal obstacles)
  simpa [findPath] using this

/- ===== Optimality on an empty obstacle set ===== -/

theorem heuristic_comm (a b : Position3D) :
    calculateHeuristic a b = calculateHeuristic b a := by
  unfold calculateHeuristic
  omega

/-- On an empty obstacle set there is always an open cell on a shortest route:
some non-closed stored cell w carries gCost equal to its distance from the
start and has fCost potential no larger than that of v. -/
theorem front_exists (start goal : Position3D) (_openL : List AStarNode)
    (allN : List (Position3D × AStarNode)) (closed : List Position3D)
    (hLB : gLBInv start allN) (hCO : closedOptInv start allN closed)
    (hFR : frontierInv start allN closed) (hSZ : startZeroInv start allN) :
    ∀ k v, calculateHeuristic start v = k → v.y = start.y → v ∉ closed →
      ∃ w nw, w ∉ closed ∧ lookupNode allN w = some nw ∧
        nw.gCost = calculateHeuristic start w ∧
        calculateHeuristic start w + calculateHeuristic w goal ≤
          calculateHeuristic start v + calculateHeuristic v goal := by
  intro k
  induction k using Nat.strong_induction_on with
  | _ k ih =>
    intro v hk hy hncl
    by_cases hv : ∃ nd, lookupNode allN v = some nd ∧ nd.gCost = calculateHeuristic start v
    · obtain ⟨nd, hnd, hg⟩ := hv
      exact ⟨v, nd, hncl, hnd, hg, le_refl _⟩
    · cases k with
      | zero =>
        exfalso
        have hvs : v = start := by
          obtain ⟨vx, vy, vz⟩ := v
          obtain ⟨sx, sy, sz⟩ := start
          unfold calculateHeuristic at hk
          simp at hk hy
          have h1 : vx = sx := by omega
          have h2 : vz = sz := by omega
          rw [h1, h2, hy]
        obtain ⟨nd, hnd, hg⟩ := hSZ
        apply hv
        subst hvs
        refine ⟨nd, hnd, ?_⟩
        unfold calculateHeuristic
        omega
      | succ j =>
        obtain ⟨u, hadj, hdu, huy⟩ : ∃ u, v ∈ getNeighbors u ∧
            calculateHeuristic start u = j ∧ u.y = start.y := by
          obtain ⟨vx, vy, vz⟩ := v
          unfold calculateHeuristic at hk
          by_cases hvx : vx < start.x
          · refine ⟨⟨vx + 1, vy, vz⟩, ?_, ?_, hy⟩
            · simp [getNeighbors, Position3D.mk.injEq]
            · unfold calculateHeuristic
              simp at hk ⊢
              omega
          · by_cases hvx2 : start.x < vx
            · refine ⟨⟨vx - 1, vy, vz⟩, ?_, ?_, hy⟩
              · simp [getNeighbors, Position3D.mk.injEq]
              · unfold calculateHeuristic
                simp at hk ⊢
                omega
            · by_cases hvz : vz < start.z
              · refine ⟨⟨vx, vy, vz + 1⟩, ?_, ?_, hy⟩
                · simp [getNeighbors, Position3D.mk.injEq]
                · unfold calculateHeuristic
                  simp at hk ⊢
                  omega
              · by_cases hvz2 : start.z < vz
                · refine ⟨⟨vx, vy, vz - 1⟩, ?_, ?_, hy⟩
                  · simp [getNeighbors, Position3D.mk.injEq]
                  · unfold calculateHeuristic
                    simp at hk ⊢
                    omega
                · exfalso
                  simp at hk
                  omega
        by_cases hu : u ∈ closed
        · exfalso
          obtain ⟨nd, hnd, hle⟩ := hFR u hu v hadj hncl
          apply hv
          refine ⟨nd, hnd, ?_⟩
          have h1 : calculateHeuristic start v ≤ nd.gCost := hLB v nd hnd
          have h2 : calculateHeuristic start v ≤ j + 1 := by omega
          have h3 : nd.gCost ≤ calculateHeuristic start u + 1 := hle
          omega
        · obtain ⟨w, nw, hw1, hw2, hw3, hw4⟩ := ih j (by omega) u hdu huy hu
          refine ⟨w, nw, hw1, hw2, hw3, ?_⟩
          have hpot : calculateHeuristic start u + calculateHeuristic u goal ≤
              calculateHeuristic start v + calculateHeuristic v goal := by
            have hH : calculateHeuristic goal u ≤ calculateHeuristic goal v + 1 :=
              (neighbors_heuristic goal u v hadj).2
            rw [heuristic_comm goal u, heuristic_comm goal v] at hH
            have hD : calculateHeuristic start v = j + 1 := hk
            omega
          omega

/-- On an empty obstacle set, a popped not-yet-closed entry carries exactly
the Manhattan distance from the start, and so does its stored node. -/
theorem opt_pop (start goal : Position3D) (openL : List AStarNode)
    (allN : List (Position3D × AStarNode)) (closed : List Position3D)
    (hO : OInv start goal openL allN closed)
    (cur : AStarNode) (rest : List AStarNode)
    (hpop : popMin openL = some (cur, rest)) (hncl : cur.position ∉ closed) :
    ∃ nd, lookupNode allN cur.position = some nd ∧
      nd.gCost = calculateHeuristic start cur.position ∧
      cur.gCost = calculateHeuristic start cur.position := by
  obtain ⟨⟨hnodup, hclsub, hvalid, hy, hpar, hopenE, hopenW⟩, hLB, hCO, hFR, hSZ⟩ := hO
  have hcur_mem : cur ∈ openL := by
    have := popMin_perm openL cur rest hpop
    exact this.symm.subset (List.mem_cons_self _ _)
  obtain ⟨hh, hf, nd, hnd, hle⟩ := hopenE cur hcur_mem
  have hyv : cur.position.y = start.y :=
    hy cur.position (mem_keys_of_lookup allN _ nd hnd)
  obtain ⟨w, nw, hw1, hw2, hw3, hw4⟩ := front_exists start goal openL allN closed
    hLB hCO hFR hSZ (calculateHeuristic start cur.position) cur.position rfl hyv hncl
  obtain ⟨ew, hewmem, hewpos, hewg⟩ := hopenW w nw hw2 hw1
  obtain ⟨hewh, hewf, _⟩ := hopenE ew hewmem
  have hmin : cur.fCost ≤ ew.fCost := popMin_min openL cur rest hpop ew hewmem
  have hDle : calculateHeuristic start cur.position ≤ nd.gCost := hLB cur.position nd hnd
  have hcurf : cur.fCost = cur.gCost + calculateHeuristic cur.position goal := by
    rw [hf, hh]
  have hewf2 : ew.fCost =
      calculateHeuristic start w + calculateHeuristic w goal := by
    rw [hewf, hewh, hewpos, hewg, hw3]
  refine ⟨nd, hnd, ?_, ?_⟩ <;> omega

/-- One non-accepting loop iteration on an empty obstacle set preserves the
strengthened invariant. -/
theorem step_OInv (start goal : Position3D)
    (openL : List AStarNode) (allN : List (Position3D × AStarNode))
    (closed : List Position3D) (cur : AStarNode) (rest : List AStarNode)
    (hO : OInv start goal openL allN closed)
    (hpop : popMin openL = some (cur, rest))
    (hncl : cur.position ∉ closed) :
    OInv start goal
      (expandNeighbors cur goal [] (cur.position :: closed)
        (getNeighbors cur.position) rest allN).1
      (expandNeighbors cur goal [] (cur.position :: closed)
        (getNeighbors cur.position) rest allN).2
      (cur.position :: closed) := by
  obtain ⟨ndv, hndv, hndvg, hcurg⟩ := opt_pop start goal openL allN closed hO cur rest hpop hncl
  obtain ⟨hG, hLB, hCO, hFR, hSZ⟩ := hO
  refine ⟨step_GInv start goal [] openL allN closed cur rest hG hpop hncl, ?_, ?_, ?_, ?_⟩
  · intro p nd hnd
    rcases expand_char cur goal [] (cur.position :: closed)
        (getNeighbors cur.position) rest allN p with hc | hc
    · rw [hc] at hnd
      exact hLB p nd hnd
    · have hnd_eq : nd = newNode cur goal p := by
        rw [hc.2.2.2.1] at hnd
        exact Option.some.inj hnd.symm
      have hadj : calculateHeuristic start p ≤
          calculateHeuristic start cur.position + 1 :=
        (neighbors_heuristic start cur.position p hc.1).1
      rw [hnd_eq]
      simp [newNode]
      omega
  · intro u hu
    rcases List.mem_cons.mp hu with hu | hu
    · subst hu
      refine ⟨ndv, ?_, hndvg⟩
      rw [expand_closed_frame cur goal [] (cur.position :: closed)
        (getNeighbors cur.position) rest allN cur.position (List.mem_cons_self _ _)]
      exact hndv
    · obtain ⟨nd, hnd, hg⟩ := hCO u hu
      refine ⟨nd, ?_, hg⟩
      rw [expand_closed_frame cur goal [] (cur.position :: closed)
        (getNeighbors cur.position) rest allN u (List.mem_cons_of_mem _ hu)]
      exact hnd
  · intro u hu v hv hvncl
    rcases List.mem_cons.mp hu with hu | hu
    · subst hu
      obtain ⟨nd2, hnd2, hle2⟩ := expand_relax_bound cur goal [] (cur.position :: closed)
        (getNeighbors cur.position) rest allN v hv hvncl (by simp [isValidPosition])
      refine ⟨nd2, hnd2, ?_⟩
      omega
    · have hvncl0 : v ∉ closed := fun hh => hvncl (List.mem_cons_of_mem _ hh)
      obtain ⟨nd, hnd, hle⟩ := hFR u hu v hv hvncl0
      obtain ⟨nd2, hnd2, hle2⟩ := expand_lookup_mono cur goal [] (cur.position :: closed)
        (getNeighbors cur.position) rest allN v nd hnd
      exact ⟨nd2, hnd2, le_trans hle2 hle⟩
  · obtain ⟨nd, hnd, hg⟩ := hSZ
    rcases expand_char cur goal [] (cur.position :: closed)
        (getNeighbors cur.position) rest allN start with hc | hc
    · refine ⟨nd, ?_, hg⟩
      rw [hc]
      exact hnd
    · exfalso
      rcases hc.2.2.2.2.2 with hbad | hbad
      · rw [hnd] at hbad
        exact Option.noConfusion hbad
      · obtain ⟨old, hold, hlt⟩ := hbad
        rw [hnd] at hold
        have : old = nd := (Option.some.inj hold).symm
        subst this
        omega

theorem loop_optimal (start goal : Position3D) :
    ∀ fuel openL allN closed, OInv start goal openL allN closed →
      aStarLoop goal [] fuel openL allN closed = [] ∨
      (∃ v, (aStarLoop goal [] fuel openL allN closed).getLast? = some v ∧
        (aStarLoop goal [] fuel openL allN closed).length =
          calculateHeuristic start v + 1) := by
  intro fuel
  induction fuel with
  | zero =>
    intro openL allN closed _
    exact Or.inl rfl
  | succ f ih =>
    intro openL allN closed hO
    cases hpop : popMin openL with
    | none =>
      exact Or.inl (by simp [aStarLoop, hpop])
    | some pr =>
      obtain ⟨cur, rest⟩ := pr
      have hperm := popMin_perm openL cur rest hpop
      have hrest_sub : ∀ e ∈ rest, e ∈ openL := by
        intro e he
        exact hperm.symm.subset (List.mem_cons_of_mem _ he)
      by_cases hmem : cur.position ∈ closed
      · have hred : aStarLoop goal [] (f + 1) openL allN closed =
            aStarLoop goal [] f rest allN closed := by
          simp [aStarLoop, hpop, hmem]
        rw [hred]
        apply ih
        obtain ⟨⟨h1, h2, h3, h4, h5, h6, h7⟩, hLB, hCO, hFR, hSZ⟩ := hO
        refine ⟨⟨h1, h2, h3, h4, h5, ?_, ?_⟩, hLB, hCO, hFR, hSZ⟩
        · intro e he
          exact h6 e (hrest_sub e he)
        · intro p nd hnd hpn
          obtain ⟨e, hemem, hepos, heg⟩ := h7 p nd hnd hpn
          rcases List.mem_cons.mp (hperm.subset hemem) with hh | hh
          · exfalso
            apply hpn
            rw [← hepos, hh]
            exact hmem
          · exact ⟨e, hh, hepos, heg⟩
      · by_cases hacc : goalAccepted cur.position goal
        · have hred : aStarLoop goal [] (f + 1) openL allN closed =
              reconstructPath allN cur.position := by
            simp [aStarLoop, hpop, hmem, hacc]
          rw [hred]
          obtain ⟨ndv, hndv, hndvg, _⟩ :=
            opt_pop start goal openL allN closed hO cur rest hpop hmem
          obtain ⟨⟨h1, h2, h3, h4, h5, h6, h7⟩, _, _, _, _⟩ := hO
          obtain ⟨hlen, _, hlast, _, _⟩ :=
            reconstructPath_spec start allN closed h5 h1 cur.position ndv hndv
          refine Or.inr ⟨cur.position, hlast, ?_⟩
          rw [hlen, hndvg]
        · have hred : aStarLoop goal [] (f + 1) openL allN closed =
              aStarLoop goal [] f
                (expandNeighbors cur goal [] (cur.position :: closed)
                  (getNeighbors cur.position) rest allN).1
                (expandNeighbors cur goal [] (cur.position :: closed)
                  (getNeighbors cur.position) rest allN).2
                (cur.position :: closed) := by
            simp [aStarLoop, hpop, hmem, hacc]
          rw [hred]
          exact ih _ _ _ (step_OInv start goal openL allN closed cur rest hO hpop hmem)

/-- On an empty obstacle set, findPath returns the empty path or a path whose
step count is exactly the Manhattan distance from the start to its last cell. -/
theorem findPath_optimal (start goal : Position3D) :
    findPath start goal [] = [] ∨
    (∃ v, (findPath start goal []).getLast? = some v ∧
      (findPath start goal []).length = calculateHeuristic start v + 1) := by
  have hO : OInv start goal
      [⟨start, 0, calculateHeuristic start goal, calculateHeuristic start goal,
        ⟨0, 0, 0⟩, false⟩]
      [(start, ⟨start, 0, calculateHeuristic start goal, calculateHeuristic start goal,
        ⟨0, 0, 0⟩, false⟩)]
      [] := by
    refine ⟨findPath_init_GInv start goal [], ?_, ?_, ?_, ?_⟩
    · intro p nd hnd
      simp [lookupNode] at hnd
      obtain ⟨hp, hnode⟩ := hnd
      subst hp
      rw [← hnode]
      simp [calculateHeuristic]
    · intro u hu
      simp at hu
    · intro u hu
      simp at hu
    · exact ⟨⟨start, 0, calculateHeuristic start goal, calculateHeuristic start goal,
        ⟨0, 0, 0⟩, false⟩, by simp [lookupNode], rfl⟩
  have := loop_optimal start goal MAX_NODES
    [⟨start, 0, calculateHeuristic start goal, calculateHeuristic start goal,
      ⟨0, 0, 0⟩, false⟩]
    [(start, ⟨start, 0, calculateHeuristic start goal, calculateHeuristic start goal,
      ⟨0, 0, 0⟩, false⟩)]
    [] hO
  simpa [findPath] using this

/- ===== The node budget truncates far searches ===== -/

theorem neighbors_x_bound (p q : Position3D) (h : q ∈ getNeighbors p) :
    q.x ≤ p.x + 1 := by
  simp [getNeighbors] at h
  rcases h with h | h | h | h <;> subst h <;> simp <;> omega

theorem loop_far (goal : Position3D) (obstacles : List Position3D) :
    ∀ (fuel : Nat) (openL : List AStarNode) (allN : List (Position3D × AStarNode))
      (closed : List Position3D) (K : Int),
      (∀ e ∈ openL, e.position.x ≤ K) → K + (fuel : Int) + 2 < goal.x →
      aStarLoop goal obstacles fuel openL allN closed = [] := by
  intro fuel
  induction fuel with
  | zero =>
    intro openL allN closed K _ _
    rfl
  | succ f ih =>
    intro openL allN closed K hK hgoal
    cases hpop : popMin openL with
    | none => simp [aStarLoop, hpop]
    | some pr =>
      obtain ⟨cur, rest⟩ := pr
      have hperm := popMin_perm openL cur rest hpop
      have hcurx : cur.position.x ≤ K :=
        hK cur (hperm.symm.subset (List.mem_cons_self _ _))
      have hrest : ∀ e ∈ rest, e.position.x ≤ K := by
        intro e he
        exact hK e (hperm.symm.subset (List.mem_cons_of_mem _ he))
      by_cases hmem : cur.position ∈ closed
      · have hred : aStarLoop goal obstacles (f + 1) openL allN closed =
            aStarLoop goal obstacles f rest allN closed := by
          simp [aStarLoop, hpop, hmem]
        rw [hred]
        exact ih rest allN closed K hrest (by omega)
      · have hacc : ¬ goalAccepted cur.position goal := by
          intro hacc
          rcases hacc with hacc | hacc
          · rw [hacc] at hcurx
            omega
          · have := hacc.1
            omega
        have hred : aStarLoop goal obstacles (f + 1) openL allN closed =
            aStarLoop goal obstacles f
              (expandNeighbors cur goal obstacles (cur.position :: closed)
                (getNeighbors cur.position) rest allN).1
              (expandNeighbors cur goal obstacles (cur.position :: closed)
                (getNeighbors cur.position) rest allN).2
              (cur.position :: closed) := by
          simp [aStarLoop, hpop, hmem, hacc]
        rw [hred]
        apply ih _ _ _ (K + 1) ?_ (by omega)
        intro e he
        rcases expand_open_members cur goal obstacles (cur.position :: closed)
            (getNeighbors cur.position) rest allN e he with hc | ⟨q, hq1, _, _, hq4⟩
        · exact le_trans (hrest e hc) (by omega)
        · subst hq4
          have : q.x ≤ cur.position.x + 1 := neighbors_x_bound cur.position q hq1
          simp [newNode]
          omega

/- ===== Frame facts of the state machine helpers ===== -/

theorem chooseNextDirection_eq (pf : PathFinder) :
    ∃ d i, chooseNextDirection pf =
      { pf with currentDirection := d, currentDirectionIndex := i } := by
  unfold chooseNextDirection
  by_cases h : pf.currentPath = [] ∨ pf.currentPath.length ≤ pf.currentPathIndex
  · exact ⟨pf.currentDirection, pf.currentDirectionIndex, by rw [if_pos h]⟩
  · rw [if_neg h]
    by_cases h2 : calculateDirectionToNextWaypoint pf ≠ ""
    · rw [if_pos h2]
      cases hidx : ({ pf with currentDirection := calculateDirectionToNextWaypoint pf } :
          PathFinder).directions.findIdx? (fun d => d =
            ({ pf with currentDirection := calculateDirectionToNextWaypoint pf } :
              PathFinder).currentDirection) with
      | none =>
        exact ⟨calculateDirectionToNextWaypoint pf, pf.currentDirectionIndex, by simp [hidx]⟩
      | some i =>
        exact ⟨calculateDirectionToNextWaypoint pf, i, by simp [hidx]⟩
    · rw [if_neg h2]
      exact ⟨pf.currentDirection, pf.currentDirectionIndex, rfl⟩

theorem planPath_eq (pf : PathFinder) :
    ∃ path d i, planPath pf = { pf with
      currentPath := path
      currentPathIndex := 0
      needsReplan := false
      currentDirection := d
      currentDirectionIndex := i } ∨ planPath pf = pf := by
  unfold planPath
  by_cases h : pf.hasTarget = false
  · exact ⟨[], pf.currentDirection, 0, Or.inr (by rw [if_pos h])⟩
  · rw [if_neg h]
    by_cases h2 : findPath ⟨pf.currentX, pf.currentY, pf.currentZ⟩ pf.target
        pf.knownObstacles ≠ []
    · rw [if_pos h2]
      obtain ⟨d, i, hd⟩ := chooseNextDirection_eq { pf with
        currentPath := findPath ⟨pf.currentX, pf.currentY, pf.currentZ⟩ pf.target
          pf.knownObstacles
        currentPathIndex := 0
        needsReplan := false }
      exact ⟨findPath ⟨pf.currentX, pf.currentY, pf.currentZ⟩ pf.target pf.knownObstacles,
        d, i, Or.inl (by rw [hd])⟩
    · rw [if_neg h2]
      exact ⟨findPath ⟨pf.currentX, pf.currentY, pf.currentZ⟩ pf.target pf.knownObstacles,
        pf.currentDirection, pf.currentDirectionIndex, Or.inl rfl⟩

theorem planPath_stepCount (pf : PathFinder) : (planPath pf).stepCount = pf.stepCount := by
  obtain ⟨path, d, i, h | h⟩ := planPath_eq pf <;> rw [h]

theorem addObstacle_stepCount (pos : Position3D) (pf : PathFinder) :
    (addObstacle pos pf).stepCount = pf.stepCount := by
  unfold addObstacle
  split_ifs <;> rfl

/-- Only a feedback message handleBotFeedback recognizes as a successful step
can change the step counter. -/
theorem stepCount_frame (q : PathFinder) (m : Msg) (hm : ¬ isSuccessfulStepMsg m) :
    (handleBotFeedback m q).stepCount = q.stepCount := by
  by_cases h0 : m.action = none ∧ m.status = none ∧ m.ty = none
  · simp [handleBotFeedback, h0]
  · cases hstate : q.state with
    | Idle => simp [handleBotFeedback, h0, hstate]
    | Done => simp [handleBotFeedback, h0, hstate]
    | RequestPosition =>
      simp only [handleBotFeedback, if_neg h0, hstate]
      by_cases h1 : m.status = some "ok" ∨ m.ty = some "position"
      · rw [if_pos h1]
        cases hp : m.position with
        | some p => simp [planPath_stepCount]
        | none =>
          cases hx : m.x with
          | some a =>
            cases hy : m.y with
            | some b =>
              cases hz : m.z with
              | some c => simp [planPath_stepCount]
              | none => simp [planPath_stepCount]
            | none => simp [planPath_stepCount]
          | none => simp [planPath_stepCount]
      · rw [if_neg h1]
    | RequestCurrentPosition =>
      simp only [handleBotFeedback, if_neg h0, hstate]
      by_cases h1 : m.status = some "ok" ∨ m.ty = some "position"
      · rw [if_pos h1]
        cases hp : m.position with
        | some p => simp
        | none =>
          cases hx : m.x with
          | some a =>
            cases hy : m.y with
            | some b =>
              cases hz : m.z with
              | some c => simp
              | none => simp
            | none => simp
          | none => simp
      · rw [if_neg h1]
    | MoveToTarget =>
      simp only [handleBotFeedback, if_neg h0, hstate]
      by_cases h1 : m.action = some "step"
      · rw [if_pos h1]
        have hok : (match m.ok with
            | some (OkVal.bool b) => b
            | some (OkVal.str s) => decide (s = "true")
            | some OkVal.other => false
            | none => false) = false := by
          cases hok : m.ok with
          | none => rfl
          | some v =>
            cases v with
            | bool b =>
              cases b with
              | true => exact absurd ⟨h1, Or.inl hok⟩ hm
              | false => rfl
            | str s =>
              by_cases hs : s = "true"
              · subst hs
                exact absurd ⟨h1, Or.inr hok⟩ hm
              · simp [hs]
            | other => rfl
        simp only [hok]
        simp
      · rw [if_neg h1]
    | CheckObstacle =>
      simp only [handleBotFeedback, if_neg h0, hstate]
      by_cases h1 : m.action = some "block_at" ∨ m.ty = some "block_at"
      · rw [if_pos h1]
        cases hn : m.name with
        | some s =>
          simp only []
          split_ifs <;> simp [planPath_stepCount, addObstacle_stepCount]
        | none =>
          simp only []
          split_ifs <;> simp [planPath_stepCount]
      · rw [if_neg h1]

/- ===== Driver composition facts ===== -/

theorem driveCount_append (l1 l2 : List Msg) :
    ∀ pf : PathFinder, driveCount (l1 ++ l2) pf =
      ((driveCount l1 pf).1 + (driveCount l2 (driveCount l1 pf).2).1,
       (driveCount l2 (driveCount l1 pf).2).2) := by
  induction l1 with
  | nil =>
    intro pf
    simp [driveCount]
  | cons m rest ih =>
    intro pf
    simp only [List.cons_append, driveCount, List.append_eq, ih]
    simp only [Prod.mk.injEq]
    exact ⟨by omega, trivial⟩

/-- One traversal of the failure cycle emits exactly one step attempt and
returns the machine to the same state. -/
theorem cycle_once : driveCount cycleMsgs cycleState = (1, cycleState) := by
  decide

/-- Entering the failure cycle from a freshly set target. -/
theorem cycle_setup :
    driveCount setupMsgs (setTarget 3 100 0 PathFinder.init) = (1, cycleState) := by
  decide

theorem cycle_repeat (n : Nat) :
    driveCount (repeatMsgs n) cycleState = (n, cycleState) := by
  induction n with
  | zero => simp [repeatMsgs, driveCount]
  | succ k ih =>
    have hsplit : repeatMsgs (k + 1) = cycleMsgs ++ repeatMsgs k := by
      simp [repeatMsgs, List.replicate_succ]
    rw [hsplit, driveCount_append, cycle_once, ih]
    simp only [Prod.mk.injEq]
    exact ⟨by omega, trivial⟩

/- ===== Claim theorems ===== -/

/-- Claim C7: in every path returned by the A* search, every pair of
consecutive waypoints differs by exactly 1 in exactly one of the x and z
coordinates, and all other coordinates, including y, are unchanged. -/
theorem path_unit_steps (start goal : Position3D) (obstacles : List Position3D) :
    List.Chain' unitStep (findPath start goal obstacles) := by
  rcases findPath_general start goal obstacles with h | ⟨_, hchain, _⟩
  · rw [h]
    exact List.chain'_nil
  · exact List.Chain'.imp (fun a b hab => neighbors_unitStep a b hab) hchain

/-- Claim C8: the target-reached test holds exactly when both the x and the z
offsets to the target have absolute value at most 2, and it ignores the y
coordinate of both the tracked position and the target. -/
theorem target_tolerance_box (pf : PathFinder) :
    (isAtTarget pf ↔ ((pf.currentX - pf.target.x).natAbs ≤ 2 ∧
      (pf.currentZ - pf.target.z).natAbs ≤ 2)) ∧
    (∀ y : Int, isAtTarget { pf with currentY := y } ↔ isAtTarget pf) ∧
    (∀ y : Int, isAtTarget { pf with target := ⟨pf.target.x, y, pf.target.z⟩ } ↔
      isAtTarget pf) := by
  refine ⟨?_, fun y => Iff.rfl, fun y => Iff.rfl⟩
  unfold isAtTarget
  omega

/-- Claim C9: consuming a block_at probe reply while the machine is in the
Moving state leaves the whole machine unchanged: tracked position, path
cursor, step counter, and the state itself. -/
theorem probe_noop_moving (pf : PathFinder) (m : Msg)
    (h1 : pf.state = NavState.MoveToTarget) (h2 : isBlockAtReply m) :
    handleBotFeedback m pf = pf := by
  have h0 : ¬ (m.action = none ∧ m.status = none ∧ m.ty = none) := by
    rcases h2 with h2 | ⟨h2a, h2t⟩
    · intro hh
      rw [hh.1] at h2
      exact Option.noConfusion h2
    · intro hh
      rw [hh.2.2] at h2t
      exact Option.noConfusion h2t
  have hstep : ¬ m.action = some "step" := by
    rcases h2 with h2 | ⟨h2a, _⟩
    · rw [h2]
      intro hh
      simp at hh
    · rw [h2a]
      intro hh
      exact Option.noConfusion hh
  simp only [handleBotFeedback, if_neg h0, h1]
  rw [if_neg hstep]

/-- Witness for C9 at a concrete Moving state and a concrete probe reply. -/
theorem probe_noop_moving_witness :
    handleBotFeedback blockEmptyMsg { PathFinder.init with state := NavState.MoveToTarget } =
      { PathFinder.init with state := NavState.MoveToTarget } :=
  probe_noop_moving { PathFinder.init with state := NavState.MoveToTarget } blockEmptyMsg
    rfl (Or.inl rfl)

/-- Claim C10: setTarget moves only an Idle machine into the
position-requesting state; on a finished (Done) machine it does not restart
navigation: the state stays Done, isComplete stays true, and nextAction
emits no request. -/
theorem terminal_setTarget (pf : PathFinder) (x y z : Int) :
    ((setTarget x y z pf).state =
      (if pf.state = NavState.Idle then NavState.RequestPosition else pf.state)) ∧
    (pf.state = NavState.Done →
      (setTarget x y z pf).state = NavState.Done ∧
      isComplete (setTarget x y z pf) = true ∧
      (nextAction (setTarget x y z pf)).1 = none ∧
      (nextAction (setTarget x y z pf)).2.state = NavState.Done) := by
  have hstate : ∀ h : ¬ pf.state = NavState.Idle, (setTarget x y z pf).state = pf.state := by
    intro h
    unfold setTarget
    simp [h]
  have hht : (setTarget x y z pf).hasTarget = true := by
    unfold setTarget
    by_cases h : pf.state = NavState.Idle <;> simp [h]
  constructor
  · by_cases h : pf.state = NavState.Idle
    · rw [if_pos h]
      unfold setTarget
      simp [h]
    · rw [if_neg h]
      exact hstate h
  · intro hd
    have hne : ¬ pf.state = NavState.Idle := by
      rw [hd]
      intro hh
      exact NavState.noConfusion hh
    have hst : (setTarget x y z pf).state = NavState.Done := by
      rw [hstate hne, hd]
    refine ⟨hst, ?_, ?_, ?_⟩
    · unfold isComplete
      simp [hst]
    · unfold nextAction
      have : ¬ (setTarget x y z pf).hasTarget = false := by
        rw [hht]
        simp
      rw [if_neg this]
      simp only [hst]
    · unfold nextAction
      have : ¬ (setTarget x y z pf).hasTarget = false := by
        rw [hht]
        simp
      rw [if_neg this]
      simp only [hst]

/-- Witness for C10 at a concrete finished machine. -/
theorem terminal_setTarget_witness :
    (setTarget 7 8 9 { PathFinder.init with state := NavState.Done }).state = NavState.Done ∧
    isComplete (setTarget 7 8 9 { PathFinder.init with state := NavState.Done }) = true ∧
    (nextAction (setTarget 7 8 9 { PathFinder.init with state := NavState.Done })).1 = none ∧
    (nextAction (setTarget 7 8 9
      { PathFinder.init with state := NavState.Done })).2.state = NavState.Done :=
  (terminal_setTarget { PathFinder.init with state := NavState.Done } 7 8 9).2 rfl

theorem cycle_total (n : Nat) :
    driveCount (setupMsgs ++ repeatMsgs n) (setTarget 3 100 0 PathFinder.init) =
      (1 + n, cycleState) := by
  rw [driveCount_append, cycle_setup]
  dsimp only
  rw [cycle_repeat]

/-- Claim C1 (counterexample): a feedback sequence in which every attempted
step fails drives the machine around a cycle that returns it to the very same
non-terminal state; after 2002 attempted steps, more than the MAX_STEPS
budget of 2000, the machine has still not reached Done. -/
theorem nav_budget_cex :
    (driveCount (setupMsgs ++ repeatMsgs 2001) (setTarget 3 100 0 PathFinder.init)).1 =
      2002 ∧
    (driveCount (setupMsgs ++ repeatMsgs 2001)
      (setTarget 3 100 0 PathFinder.init)).2.state ≠ NavState.Done ∧
    MAX_STEPS < 2002 := by
  have h1 := cycle_total 2001
  refine ⟨by rw [h1], by rw [h1]; decide, by decide⟩

/-- Claim C1 (amended): only successful steps are counted against the step
budget; once the counter has reached MAX_STEPS, the next produce-action call
in the Moving state emits nothing and enters Done, and no feedback message
other than a successful step reply ever changes the step counter. -/
theorem nav_budget_amended (pf : PathFinder)
    (h1 : pf.state = NavState.MoveToTarget) (h2 : pf.hasTarget = true)
    (h3 : MAX_STEPS ≤ pf.stepCount) :
    (nextAction pf).1 = none ∧ (nextAction pf).2.state = NavState.Done ∧
    (∀ (q : PathFinder) (m : Msg), ¬ isSuccessfulStepMsg m →
      (handleBotFeedback m q).stepCount = q.stepCount) := by
  have hht : ¬ pf.hasTarget = false := by
    rw [h2]
    simp
  refine ⟨?_, ?_, fun q m hm => stepCount_frame q m hm⟩
  · unfold nextAction
    rw [if_neg hht]
    simp only [h1]
    by_cases hat : isAtTarget pf
    · rw [if_pos hat]
    · rw [if_neg hat, if_pos h3]
  · unfold nextAction
    rw [if_neg hht]
    simp only [h1]
    by_cases hat : isAtTarget pf
    · rw [if_pos hat]
    · rw [if_neg hat, if_pos h3]

/-- Witness for the amended C1 at a concrete Moving machine whose step
counter has reached the budget. -/
theorem nav_budget_witness :
    (nextAction { PathFinder.init with
      state := NavState.MoveToTarget
      hasTarget := true
      stepCount := 2000 }).1 = none ∧
    (nextAction { PathFinder.init with
      state := NavState.MoveToTarget
      hasTarget := true
      stepCount := 2000 }).2.state = NavState.Done ∧
    (∀ (q : PathFinder) (m : Msg), ¬ isSuccessfulStepMsg m →
      (handleBotFeedback m q).stepCount = q.stepCount) :=
  nav_budget_amended { PathFinder.init with
    state := NavState.MoveToTarget
    hasTarget := true
    stepCount := 2000 } rfl rfl (by decide)

/-- Claim C2 (counterexample): a reply tagged status ok that carries none of
the coordinate fields the position-awaiting state expects is not a no-op: it
still transitions the machine out of RequestPosition. -/
theorem feedback_noop_cex :
    statusOkOnlyMsg.position = none ∧ statusOkOnlyMsg.x = none ∧
    statusOkOnlyMsg.y = none ∧ statusOkOnlyMsg.z = none ∧
    (setTarget 3 100 0 PathFinder.init).state = NavState.RequestPosition ∧
    handleBotFeedback statusOkOnlyMsg (setTarget 3 100 0 PathFinder.init) ≠
      setTarget 3 100 0 PathFinder.init := by
  refine ⟨rfl, rfl, rfl, rfl, rfl, ?_⟩
  decide

/-- Claim C2 (amended): feedback that carries none of the top-level tag
fields, or whose tags do not match the ones the current state dispatches on,
leaves the machine exactly unchanged; a tag-matching message with missing
payload fields is however still consumed. -/
theorem feedback_noop_amended (pf : PathFinder) (m : Msg)
    (h : ¬ hasAnyTag m ∨ ¬ relevantTo pf.state m) :
    handleBotFeedback m pf = pf := by
  by_cases h0 : m.action = none ∧ m.status = none ∧ m.ty = none
  · simp [handleBotFeedback, h0]
  · have hrel : ¬ relevantTo pf.state m := by
      rcases h with h | h
      · exfalso
        apply h
        unfold hasAnyTag
        by_contra hno
        push_neg at hno
        exact h0 ⟨hno.1, hno.2.1, hno.2.2⟩
      · exact h
    cases hstate : pf.state with
    | Idle => simp [handleBotFeedback, h0, hstate]
    | Done => simp [handleBotFeedback, h0, hstate]
    | RequestPosition =>
      rw [hstate] at hrel
      unfold relevantTo at hrel
      simp only [handleBotFeedback, if_neg h0, hstate]
      rw [if_neg hrel]
    | RequestCurrentPosition =>
      rw [hstate] at hrel
      unfold relevantTo at hrel
      simp only [handleBotFeedback, if_neg h0, hstate]
      rw [if_neg hrel]
    | MoveToTarget =>
      rw [hstate] at hrel
      unfold relevantTo at hrel
      simp only [handleBotFeedback, if_neg h0, hstate]
      rw [if_neg hrel]
    | CheckObstacle =>
      rw [hstate] at hrel
      unfold relevantTo at hrel
      simp only [handleBotFeedback, if_neg h0, hstate]
      rw [if_neg hrel]

/-- Witness for the amended C2: an off-topic message in RequestPosition. -/
theorem feedback_noop_witness :
    handleBotFeedback { emptyMsg with action := some "chat" }
      (setTarget 3 100 0 PathFinder.init) = setTarget 3 100 0 PathFinder.init :=
  feedback_noop_amended (setTarget 3 100 0 PathFinder.init)
    { emptyMsg with action := some "chat" } (Or.inr (by decide))

/-- Claim C3 (counterexample): when the absolute x and z offsets to the
cursor waypoint are equal and nonzero, the follower chooses the z axis
(south), not the x axis (east/west). -/
theorem waypoint_axis_cex :
    ((⟨1, 0, 1⟩ : Position3D).x - PathFinder.init.currentX).natAbs =
      ((⟨1, 0, 1⟩ : Position3D).z - PathFinder.init.currentZ).natAbs ∧
    ((⟨1, 0, 1⟩ : Position3D).x - PathFinder.init.currentX).natAbs ≠ 0 ∧
    calculateDirectionToNextWaypoint
      { PathFinder.init with currentPath := [⟨1, 0, 1⟩] } = "south" ∧
    calculateDirectionToNextWaypoint
      { PathFinder.init with currentPath := [⟨1, 0, 1⟩] } ≠ "east" ∧
    calculateDirectionToNextWaypoint
      { PathFinder.init with currentPath := [⟨1, 0, 1⟩] } ≠ "west" := by
  decide

/-- Claim C3 (amended): the follower moves along the axis with the strictly
larger absolute offset to the cursor waypoint; when the two absolute offsets
are equal and nonzero it moves along the z axis (south/north); when both
offsets are zero it falls back to east. -/
theorem waypoint_axis_amended (pf : PathFinder)
    (h : pf.currentPathIndex < pf.currentPath.length) :
    let w := pf.currentPath.getD pf.currentPathIndex ⟨0, 0, 0⟩
    let dx := w.x - pf.currentX
    let dz := w.z - pf.currentZ
    (dx.natAbs > dz.natAbs →
      calculateDirectionToNextWaypoint pf = (if dx > 0 then "east" else "west")) ∧
    (dx.natAbs ≤ dz.natAbs ∧ dz ≠ 0 →
      calculateDirectionToNextWaypoint pf = (if dz > 0 then "south" else "north")) ∧
    (dx = 0 ∧ dz = 0 → calculateDirectionToNextWaypoint pf = "east") := by
  intro w dx dz
  have hne : ¬ (pf.currentPath = [] ∨ pf.currentPath.length ≤ pf.currentPathIndex) := by
    rintro (hh | hh)
    · rw [hh] at h
      simp at h
    · omega
  unfold calculateDirectionToNextWaypoint
  rw [if_neg hne]
  refine ⟨?_, ?_, ?_⟩
  · intro hgt
    rw [if_pos hgt]
  · rintro ⟨hle, hnz⟩
    have hngt : ¬ dx.natAbs > dz.natAbs := by omega
    have hpos : dz.natAbs > 0 := by omega
    rw [if_neg hngt, if_pos hpos]
  · rintro ⟨h1, h2⟩
    have hngt : ¬ dx.natAbs > dz.natAbs := by omega
    have hnpos : ¬ dz.natAbs > 0 := by omega
    rw [if_neg hngt, if_neg hnpos]

/-- Witness for the amended C3: offset (2,1) to the waypoint yields east. -/
theorem waypoint_axis_witness :
    calculateDirectionToNextWaypoint
      { PathFinder.init with currentPath := [⟨2, 0, 1⟩] } = "east" := by
  have h := (waypoint_axis_amended
    { PathFinder.init with currentPath := [⟨2, 0, 1⟩] } (by decide)).1 (by decide)
  exact h.trans (by decide)

/-- Claim C4 (counterexample): with start (0,100,0), goal (3,100,0) and no
obstacles, the search does not return the four-cell straight path the claim
names. -/
theorem astar_example_cex :
    findPath ⟨0, 100, 0⟩ ⟨3, 100, 0⟩ [] ≠
      [⟨0, 100, 0⟩, ⟨1, 100, 0⟩, ⟨2, 100, 0⟩, ⟨3, 100, 0⟩] := by
  decide

/-- Claim C4 (amended): the 2-cell early-exit box accepts (1,100,0), so the
search returns [(0,100,0),(1,100,0)], a path of exactly one step. -/
theorem astar_example_amended :
    findPath ⟨0, 100, 0⟩ ⟨3, 100, 0⟩ [] = [⟨0, 100, 0⟩, ⟨1, 100, 0⟩] ∧
    (findPath ⟨0, 100, 0⟩ ⟨3, 100, 0⟩ []).length = 2 := by
  decide

/-- Claim C5 (counterexample): with no obstacles and a goal 20000 cells away,
the MAX_NODES budget is exhausted before an accepted cell is reached, and the
search returns the empty path instead of a non-empty optimal one. -/
theorem astar_budget_cex : findPath ⟨0, 0, 0⟩ ⟨20000, 0, 0⟩ [] = [] := by
  show aStarLoop ⟨20000, 0, 0⟩ [] MAX_NODES
    [⟨⟨0, 0, 0⟩, 0, calculateHeuristic ⟨0, 0, 0⟩ ⟨20000, 0, 0⟩,
      calculateHeuristic ⟨0, 0, 0⟩ ⟨20000, 0, 0⟩, ⟨0, 0, 0⟩, false⟩]
    [(⟨0, 0, 0⟩, ⟨⟨0, 0, 0⟩, 0, calculateHeuristic ⟨0, 0, 0⟩ ⟨20000, 0, 0⟩,
      calculateHeuristic ⟨0, 0, 0⟩ ⟨20000, 0, 0⟩, ⟨0, 0, 0⟩, false⟩)]
    [] = []
  apply loop_far ⟨20000, 0, 0⟩ [] MAX_NODES _ _ _ 0
  · intro e he
    simp at he
    rw [he]
  · decide

/-- Claim C5 (amended): on an empty obstacle set the search returns either
the empty path (when the node budget gives out) or a non-empty path whose
step count equals the Manhattan (x,z) distance between the start and the
final, goal-accepted cell. -/
theorem astar_optimal_amended (start goal : Position3D) :
    findPath start goal [] = [] ∨
    (∃ v, (findPath start goal []).getLast? = some v ∧
      (findPath start goal []).length = manhattanXZ start v + 1) := by
  rcases findPath_optimal start goal with h | ⟨v, h1, h2⟩
  · exact Or.inl h
  · refine Or.inr ⟨v, h1, ?_⟩
    have hmm : manhattanXZ start v = calculateHeuristic start v := rfl
    rw [hmm]
    exact h2

/-- Claim C6 (counterexample): when the search start cell itself is in the
obstacle set, the returned path still contains that obstacle cell. -/
theorem obstacle_start_cex :
    (⟨0, 0, 0⟩ : Position3D) ∈ ([⟨0, 0, 0⟩] : List Position3D) ∧
    (⟨0, 0, 0⟩ : Position3D) ∈ findPath ⟨0, 0, 0⟩ ⟨1, 0, 0⟩ [⟨0, 0, 0⟩] := by
  decide

/-- Claim C6 (amended): an obstacle cell other than the search start cell
never appears in any returned path; obstacle cells are never admitted as
search neighbors. -/
theorem obstacle_avoid_amended (start goal : Position3D) (obstacles : List Position3D)
    (c : Position3D) (hc : c ∈ obstacles) (hne : c ≠ start) :
    c ∉ findPath start goal obstacles := by
  intro hmem
  rcases findPath_general start goal obstacles with h | ⟨_, _, hval⟩
  · rw [h] at hmem
    simp at hmem
  · rcases hval c hmem with h | h
    · exact hne h
    · exact h hc

/-- Witness for the amended C6 at a concrete obstacle away from the start. -/
theorem obstacle_avoid_witness :
    (⟨5, 5, 5⟩ : Position3D) ∈ ([⟨5, 5, 5⟩] : List Position3D) ∧
    (⟨5, 5, 5⟩ : Position3D) ∉ findPath ⟨0, 0, 0⟩ ⟨1, 0, 0⟩ [⟨5, 5, 5⟩] :=
  ⟨by decide, obstacle_avoid_amended ⟨0, 0, 0⟩ ⟨1, 0, 0⟩ [⟨5, 5, 5⟩] ⟨5, 5, 5⟩
    (by decide) (by decide)⟩
